import Mathlib

/-!
Verification development for the bedrock markdown-note editing core.

The Rust sources (src/editor_core.rs and src/app.rs) are shallowly embedded
here.  Text buffers are modelled as `List Char`; the Rust byte offsets become
character offsets (all concrete inputs below are ASCII, where the two agree).
Machine integers (`usize`, `u64`) become `Nat`; Rust's `saturating_sub` is the
truncated subtraction of `Nat`.  The `&mut self` methods of `EditorSnapshot`
are modelled by explicit state passing: each returns the next snapshot
together with its result value, and the fallible `apply_transaction` returns
an `Except` value alongside the (unchanged, on error) snapshot.
-/

namespace Bedrock

abbrev Str : Type := List Char

instance except_decidable_eq {ε α : Type} [DecidableEq ε] [DecidableEq α] :
    DecidableEq (Except ε α) := fun a b =>
  match a, b with
  | Except.error e, Except.error f =>
    if h : e = f then isTrue (congrArg Except.error h)
    else isFalse (fun hh => h (Except.error.inj hh))
  | Except.error _, Except.ok _ => isFalse (fun hh => Except.noConfusion hh)
  | Except.ok _, Except.error _ => isFalse (fun hh => Except.noConfusion hh)
  | Except.ok x, Except.ok y =>
    if h : x = y then isTrue (congrArg Except.ok h)
    else isFalse (fun hh => h (Except.ok.inj hh))

/-- Slice `&text[a..b]` of a Rust string, as a list of characters. -/
def strSlice (t : Str) (a b : Nat) : Str := (t.drop a).take (b - a)

/-- Selection from editor_core.rs: `{start, end}` offsets. -/
structure Selection where
  start : Nat
  end_ : Nat
deriving DecidableEq

/-- `Selection::new`: normalizes so that start <= end. -/
def Selection.new (start end_ : Nat) : Selection :=
  if start ≤ end_ then ⟨start, end_⟩ else ⟨end_, start⟩

/-- `Selection::cursor`. -/
def Selection.cursor (pos : Nat) : Selection := ⟨pos, pos⟩

/-- `Selection::is_cursor`. -/
def Selection.is_cursor (s : Selection) : Bool := s.start == s.end_

/-- `Selection::clamp`. -/
def Selection.clamp (s : Selection) (len : Nat) : Selection :=
  Selection.new (min s.start len) (min s.end_ len)

/-- TextChange from editor_core.rs: replace `[start, end)` by `insert`. -/
structure TextChange where
  start : Nat
  end_ : Nat
  insert : Str
deriving DecidableEq

/-- ChangeOrigin from editor_core.rs. -/
inductive ChangeOrigin where
  | Input
  | Command
  | Plugin
  | System
deriving DecidableEq

/-- Transaction from editor_core.rs. -/
structure Transaction where
  changes : List TextChange
  selection_after : Option Selection
  origin : ChangeOrigin
  label : Str
deriving DecidableEq

/-- `Transaction::single`. -/
def Transaction.single (change : TextChange) (selection_after : Option Selection)
    (origin : ChangeOrigin) (label : Str) : Transaction :=
  ⟨[change], selection_after, origin, label⟩

/-- ApplyOutcome from editor_core.rs. -/
structure ApplyOutcome where
  text_changed : Bool
  selection_changed : Bool
  revision : Nat
deriving DecidableEq

/-- CoreError from editor_core.rs. -/
inductive CoreError where
  | InvalidRange (start end_ len : Nat)
  | OverlappingChanges (first_start first_end next_start next_end : Nat)
deriving DecidableEq

/-- EditorSnapshot from editor_core.rs. -/
structure EditorSnapshot where
  text : Str
  selection : Selection
  revision : Nat
deriving DecidableEq

/-- `EditorSnapshot::new`. -/
def EditorSnapshot.new (text : Str) : EditorSnapshot :=
  ⟨text, Selection.cursor text.length, 0⟩

/-- `EditorSnapshot::set_selection`. -/
def EditorSnapshot.set_selection (s : EditorSnapshot) (selection : Selection) :
    EditorSnapshot :=
  { s with selection := selection.clamp s.text.length }

/-- `EditorSnapshot::replace_from_input`. -/
def EditorSnapshot.replace_from_input (s : EditorSnapshot) (new_text : Str)
    (selection : Selection) : EditorSnapshot × ApplyOutcome :=
  let next_selection := selection.clamp new_text.length
  let text_changed : Bool := decide (s.text ≠ new_text)
  let selection_changed : Bool := decide (s.selection ≠ next_selection)
  let next_revision := if text_changed then s.revision + 1 else s.revision
  (⟨new_text, next_selection, next_revision⟩,
    ⟨text_changed, selection_changed, next_revision⟩)

/-- Sort key used by `normalize_changes`: `sort_by_key(|c| (c.start, c.end))`,
lexicographic on the pair. -/
def change_le (a b : TextChange) : Prop :=
  a.start < b.start ∨ (a.start = b.start ∧ a.end_ ≤ b.end_)

instance change_le_decidable : DecidableRel change_le := fun a b =>
  inferInstanceAs (Decidable (a.start < b.start ∨ (a.start = b.start ∧ a.end_ ≤ b.end_)))

/-- First loop of `normalize_changes`: the first out-of-bounds change, if any. -/
def find_invalid : List TextChange → Nat → Option CoreError
  | [], _ => none
  | c :: rest, len =>
    if c.start > c.end_ ∨ c.end_ > len then
      some (CoreError.InvalidRange c.start c.end_ len)
    else find_invalid rest len

/-- Second loop of `normalize_changes` (over `windows(2)`): the first
overlapping adjacent pair, if any. -/
def find_overlap : List TextChange → Option CoreError
  | [] => none
  | [_] => none
  | a :: b :: rest =>
    if b.start < a.end_ then
      some (CoreError.OverlappingChanges a.start a.end_ b.start b.end_)
    else find_overlap (b :: rest)

/-- `normalize_changes` from editor_core.rs: stable-sort by `(start, end)`,
reject out-of-bounds ranges, then reject overlapping neighbours. -/
def normalize_changes (changes : List TextChange) (len : Nat) :
    Except CoreError (List TextChange) :=
  let sorted := List.insertionSort change_le changes
  match find_invalid sorted len with
  | some e => Except.error e
  | none =>
    match find_overlap sorted with
    | some e => Except.error e
    | none => Except.ok sorted

/-- Loop body of `apply_changes_to_text`, with the running `cursor`. -/
def apply_changes_go (text : Str) : Nat → List TextChange → Str
  | cursor, [] => strSlice text cursor text.length
  | cursor, c :: rest =>
    strSlice text cursor c.start ++ c.insert ++ apply_changes_go text c.end_ rest

/-- `apply_changes_to_text` from editor_core.rs. -/
def apply_changes_to_text (text : Str) (changes : List TextChange) : Str :=
  apply_changes_go text 0 changes

/-- Loop body of `map_position_through_changes` for a single change. -/
def map_position_step (pos : Nat) (c : TextChange) : Nat :=
  if pos < c.start then pos
  else if pos ≤ c.end_ then c.start + c.insert.length
  else
    let removed := c.end_ - c.start
    if c.insert.length ≥ removed then pos + (c.insert.length - removed)
    else pos - (removed - c.insert.length)

/-- `map_position_through_changes` from editor_core.rs. -/
def map_position_through_changes (pos : Nat) (changes : List TextChange) : Nat :=
  changes.foldl map_position_step pos

/-- `EditorSnapshot::apply_transaction`; on error the unchanged snapshot is
returned alongside the error, mirroring the early `?` return. -/
def EditorSnapshot.apply_transaction (s : EditorSnapshot) (tx : Transaction) :
    EditorSnapshot × Except CoreError ApplyOutcome :=
  match normalize_changes tx.changes s.text.length with
  | Except.error e => (s, Except.error e)
  | Except.ok normalized =>
    let next_text := if normalized.isEmpty then s.text
      else apply_changes_to_text s.text normalized
    let next_selection :=
      match tx.selection_after with
      | some sel => sel.clamp next_text.length
      | none =>
        (Selection.new (map_position_through_changes s.selection.start normalized)
          (map_position_through_changes s.selection.end_ normalized)).clamp
          next_text.length
    let text_changed : Bool := decide (s.text ≠ next_text)
    let selection_changed : Bool := decide (s.selection ≠ next_selection)
    let next_revision := if text_changed then s.revision + 1 else s.revision
    (⟨next_text, next_selection, next_revision⟩,
      Except.ok ⟨text_changed, selection_changed, next_revision⟩)

/-- `line_start` from editor_core.rs: one past the rightmost newline strictly
before `pos` (clamped), else 0. -/
def line_start (text : Str) (pos : Nat) : Nat :=
  let clamped := min pos text.length
  match (text.take clamped).reverse.findIdx? (fun c => c == '\n') with
  | some j => clamped - j
  | none => 0

/-- `line_end` from editor_core.rs: position of the next newline at or after
`pos` (clamped), else the text length. -/
def line_end (text : Str) (pos : Nat) : Nat :=
  let clamped := min pos text.length
  match (text.drop clamped).findIdx? (fun c => c == '\n') with
  | some i => clamped + i
  | none => text.length

/-- MarkdownCommand from editor_core.rs (`open`/`close` renamed `open_`,
`close_` and `prefix` renamed `pre`, which are reserved words in Lean). -/
inductive MarkdownCommand where
  | Wrap (open_ close_ label : Str)
  | PrefixLine (pre label : Str)
  | Indent
  | Outdent
  | ContinueBlock
  | AutoPair (open_ close_ : Str)
deriving DecidableEq

/-- `wrap_transaction` from editor_core.rs. -/
def wrap_transaction (s : EditorSnapshot) (open_ close_ label : Str) : Transaction :=
  let selection := s.selection.clamp s.text.length
  let insert := open_ ++ strSlice s.text selection.start selection.end_ ++ close_
  let selection_after :=
    if selection.is_cursor then Selection.cursor (selection.start + open_.length)
    else Selection.cursor (selection.end_ + open_.length + close_.length)
  Transaction.single ⟨selection.start, selection.end_, insert⟩ (some selection_after)
    ChangeOrigin.Command label

/-- `prefix_line_transaction` from editor_core.rs. -/
def prefix_line_transaction (s : EditorSnapshot) (pre label : Str) : Transaction :=
  let selection := s.selection.clamp s.text.length
  let start := line_start s.text selection.start
  let selection_after :=
    Selection.new (selection.start + pre.length) (selection.end_ + pre.length)
  Transaction.single ⟨start, start, pre⟩ (some selection_after) ChangeOrigin.Command label

/-- Leading-space removal count used by Outdent:
`line.chars().take_while(|c| *c == ' ').take(4).count()`. -/
def outdent_space_count (line : Str) : Nat :=
  min (line.takeWhile (fun c => c == ' ')).length 4

/-- `indent_or_outdent_transaction` from editor_core.rs. -/
def indent_or_outdent_transaction (s : EditorSnapshot) (outdent : Bool) :
    Option Transaction :=
  let text := s.text
  let selection := s.selection.clamp text.length
  if selection.is_cursor then
    if !outdent then
      some (Transaction.single ⟨selection.start, selection.end_, "    ".data⟩
        (some (Selection.cursor (selection.start + 4))) ChangeOrigin.Command
        "indent".data)
    else
      let ls := line_start text selection.start
      let le := line_end text selection.start
      let line := strSlice text ls le
      let remove := if line.head? == some '\t' then 1 else outdent_space_count line
      if remove = 0 then none
      else
        let replaced := line.drop remove
        let cursor_offset := selection.start - ls
        let new_cursor := if cursor_offset ≥ remove then selection.start - remove else ls
        some (Transaction.single ⟨ls, le, replaced⟩
          (some (Selection.cursor new_cursor)) ChangeOrigin.Command "outdent".data)
  else
    let block_start := line_start text selection.start
    let block_end := line_end text selection.end_
    let block := strSlice text block_start block_end
    let transformed := List.intercalate "\n".data ((block.splitOn '\n').map (fun line =>
      if outdent then
        if line.head? == some '\t' then line.drop 1
        else line.drop (outdent_space_count line)
      else "    ".data ++ line))
    some (Transaction.single ⟨block_start, block_end, transformed⟩
      (some (Selection.new block_start (block_start + transformed.length)))
      ChangeOrigin.Command
      (if outdent then "outdent-block".data else "indent-block".data))

/-- ASCII fragment of the `\s` character class used by the continue-block
regexes (the concrete inputs of this development stay within ASCII). -/
def is_ws (c : Char) : Bool :=
  c == ' ' || c == '\t' || c == '\n' || c == '\r' || c == '\x0B' || c == '\x0C'

/-- Rust `str::trim` on both ends. -/
def trim (l : Str) : Str :=
  ((l.dropWhile is_ws).reverse.dropWhile is_ws).reverse

/-- Matcher for `RE_TASK`, regex `^(\s*[-*+]\s+)\[(?: |x|X)\]\s+(.*)$`,
returning (capture 1, capture 2). -/
def match_task (line : Str) : Option (Str × Str) :=
  let ws := line.takeWhile is_ws
  match line.drop ws.length with
  | b :: rest1 =>
    if b == '-' || b == '*' || b == '+' then
      let ws2 := rest1.takeWhile is_ws
      if ws2.length = 0 then none
      else
        match rest1.drop ws2.length with
        | '[' :: m :: ']' :: rest3 =>
          if m == ' ' || m == 'x' || m == 'X' then
            let ws3 := rest3.takeWhile is_ws
            if ws3.length = 0 then none
            else some (ws ++ b :: ws2, rest3.drop ws3.length)
          else none
        | _ => none
    else none
  | [] => none

/-- Matcher for `RE_OL`, regex `^(\s*)(\d+)\.\s+(.*)$`, returning
(capture 1, the numeral of capture 2, capture 3).  Rust parses capture 2 as
`u64` with `unwrap_or(1)`; here it is a `Nat`, so overflow never occurs. -/
def match_ol (line : Str) : Option (Str × Nat × Str) :=
  let ws := line.takeWhile is_ws
  let rest1 := line.drop ws.length
  let digits := rest1.takeWhile (fun c => c.isDigit)
  if digits.length = 0 then none
  else
    match rest1.drop digits.length with
    | '.' :: rest2 =>
      let ws2 := rest2.takeWhile is_ws
      if ws2.length = 0 then none
      else some (ws, digits.foldl (fun n c => n * 10 + (c.toNat - 48)) 0,
        rest2.drop ws2.length)
    | _ => none

/-- Matcher for `RE_UL`, regex `^(\s*[-*+]\s+)(.*)$`. -/
def match_ul (line : Str) : Option (Str × Str) :=
  let ws := line.takeWhile is_ws
  match line.drop ws.length with
  | b :: rest1 =>
    if b == '-' || b == '*' || b == '+' then
      let ws2 := rest1.takeWhile is_ws
      if ws2.length = 0 then none
      else some (ws ++ b :: ws2, rest1.drop ws2.length)
    else none
  | [] => none

/-- Matcher for `RE_QUOTE`, regex `^(\s*>\s+)(.*)$`. -/
def match_quote (line : Str) : Option (Str × Str) :=
  let ws := line.takeWhile is_ws
  match line.drop ws.length with
  | '>' :: rest1 =>
    let ws2 := rest1.takeWhile is_ws
    if ws2.length = 0 then none
    else some (ws ++ '>' :: ws2, rest1.drop ws2.length)
  | _ => none

/-- Inserted text chosen by `continue_markdown_block_transaction` for the
current line, if any block form matches. -/
def continue_insert (line : Str) : Option Str :=
  match match_task line with
  | some (pre, body) =>
    if (trim body).isEmpty then some "\n".data
    else some ("\n".data ++ pre ++ "[ ] ".data)
  | none =>
    match match_ol line with
    | some (indent, current, body) =>
      if (trim body).isEmpty then some "\n".data
      else some ("\n".data ++ indent ++ Nat.toDigits 10 (current + 1) ++ ". ".data)
    | none =>
      match match_ul line with
      | some (pre, body) =>
        if (trim body).isEmpty then some "\n".data
        else some ("\n".data ++ pre)
      | none =>
        match match_quote line with
        | some (pre, body) =>
          if (trim body).isEmpty then some "\n".data
          else some ("\n".data ++ pre)
        | none => none

/-- `continue_markdown_block_transaction` from editor_core.rs. -/
def continue_markdown_block_transaction (s : EditorSnapshot) : Option Transaction :=
  let text := s.text
  let selection := s.selection.clamp text.length
  if !selection.is_cursor then none
  else
    let ls := line_start text selection.start
    let le := line_end text selection.start
    let line := strSlice text ls le
    match continue_insert line with
    | none => none
    | some insert =>
      some (Transaction.single ⟨selection.start, selection.end_, insert⟩
        (some (Selection.cursor (selection.start + insert.length)))
        ChangeOrigin.Command "continue-markdown-block".data)

/-- `build_markdown_transaction` from editor_core.rs. -/
def build_markdown_transaction (s : EditorSnapshot) (command : MarkdownCommand) :
    Option Transaction :=
  match command with
  | MarkdownCommand.Wrap open_ close_ label => some (wrap_transaction s open_ close_ label)
  | MarkdownCommand.PrefixLine pre label => some (prefix_line_transaction s pre label)
  | MarkdownCommand.Indent => indent_or_outdent_transaction s false
  | MarkdownCommand.Outdent => indent_or_outdent_transaction s true
  | MarkdownCommand.ContinueBlock => continue_markdown_block_transaction s
  | MarkdownCommand.AutoPair open_ close_ =>
    some (wrap_transaction s open_ close_ "autopair".data)

/-- `apply_markdown_command` from editor_core.rs. -/
def apply_markdown_command (s : EditorSnapshot) (command : MarkdownCommand) :
    EditorSnapshot × Except CoreError Bool :=
  match build_markdown_transaction s command with
  | none => (s, Except.ok false)
  | some tx =>
    match s.apply_transaction tx with
    | (s', Except.error e) => (s', Except.error e)
    | (s', Except.ok outcome) =>
      (s', Except.ok (outcome.text_changed || outcome.selection_changed))

/-! Embedding of the live markdown formatter and metadata indexer from
src/app.rs.  Strings remain `List Char`.  The source's `HashMap`s are
modelled as association lists; the source only ever iterates over the
`files` vector (never over a map), so observable ordering is preserved.
The precompiled regexes of the source are translated into explicit
scanners with the same leftmost, non-overlapping, greedy semantics; the
`\s` class is modelled by its ASCII fragment. -/

/-- Rust `str::replace(char, str)`. -/
def list_replace_char (c : Char) (rep : Str) (s : Str) : Str :=
  s.flatMap (fun x => if x = c then rep else [x])

/-- `escape_html` from app.rs: replace `&`, then `<`, then `>`. -/
def escape_html (s : Str) : Str :=
  list_replace_char '>' ("&gt;".data)
    (list_replace_char '<' ("&lt;".data)
      (list_replace_char '&' ("&amp;".data) s))

/-- `escape_html_attr` from app.rs: replace `&`, `"`, `<`, `>`. -/
def escape_html_attr (s : Str) : Str :=
  list_replace_char '>' ("&gt;".data)
    (list_replace_char '<' ("&lt;".data)
      (list_replace_char '"' ("&quot;".data)
        (list_replace_char '&' ("&amp;".data) s)))

/-- Rust `char::to_ascii_lowercase`. -/
def ascii_lower (c : Char) : Char :=
  if 'A' ≤ c ∧ c ≤ 'Z' then Char.ofNat (c.toNat + 32) else c

/-- Rust `str::starts_with`. -/
def starts_with (pre s : Str) : Bool := s.take pre.length == pre

/-- Rust `str::ends_with`. -/
def ends_with (suf s : Str) : Bool := starts_with suf.reverse s.reverse

def substring_at_go (hay needle : Str) : Nat → Nat → Bool
  | 0, _ => false
  | fuel + 1, i =>
    if i + needle.length ≤ hay.length then
      (strSlice hay i (i + needle.length) == needle)
        || substring_at_go hay needle fuel (i + 1)
    else false

/-- Rust `str::contains(substring)`. -/
def contains_substring (hay needle : Str) : Bool :=
  substring_at_go hay needle (hay.length + 1) 0

/-- Rust `str::trim_matches(c)` (both ends, repeatedly). -/
def trim_matches (c : Char) (s : Str) : Str :=
  ((s.dropWhile (fun x => x == c)).reverse.dropWhile (fun x => x == c)).reverse

/-- Byte-lexicographic comparison of Rust `String`s (UTF-8 byte order agrees
with codepoint order), as used by `Vec::sort`. -/
def str_leb : Str → Str → Bool
  | [], _ => true
  | _ :: _, [] => false
  | a :: as_, b :: bs =>
    if a.toNat < b.toNat then true
    else if b.toNat < a.toNat then false
    else str_leb as_ bs

def str_le (a b : Str) : Prop := str_leb a b = true

instance str_le_decidable : DecidableRel str_le := fun a b =>
  inferInstanceAs (Decidable (str_leb a b = true))

/-- Rust `Vec::dedup`: collapse runs of adjacent equal elements. -/
def dedup_adjacent : List Str → List Str
  | [] => []
  | [a] => [a]
  | a :: b :: rest =>
    if a == b then dedup_adjacent (b :: rest) else a :: dedup_adjacent (b :: rest)

/-- Lookup in an association list (modelling `HashMap::get`). -/
def alist_get? {V : Type} : List (Str × V) → Str → Option V
  | [], _ => none
  | (k, v) :: rest, key => if k == key then some v else alist_get? rest key

/-- `HashMap::insert` (overwrite or append). -/
def alist_set {V : Type} : List (Str × V) → Str → V → List (Str × V)
  | [], k, v => [(k, v)]
  | (k', v') :: rest, k, v =>
    if k' == k then (k, v) :: rest else (k', v') :: alist_set rest k v

/-- `HashMap::entry(k).or_insert(dflt)` followed by an in-place update. -/
def alist_update {V : Type} : List (Str × V) → Str → V → (V → V) → List (Str × V)
  | [], k, dflt, f => [(k, f dflt)]
  | (k', v') :: rest, k, dflt, f =>
    if k' == k then (k', f v') :: rest else (k', v') :: alist_update rest k dflt f

/-- `normalize_slashes` from app.rs. -/
def normalize_slashes (path : Str) : Str := list_replace_char '\\' ("/".data) path

/-- `normalize_rel_path` from app.rs: trim, forward slashes, strip leading
and trailing slashes. -/
def normalize_rel_path (path : Str) : Str :=
  trim_matches '/' (normalize_slashes (trim path))

def collapse_fold : List Str → List Str → List Str
  | parts, [] => parts
  | parts, seg :: rest =>
    if seg.isEmpty || seg == ".".data then collapse_fold parts rest
    else if seg == "..".data then
      collapse_fold (if parts.isEmpty then parts else parts.dropLast) rest
    else collapse_fold (parts ++ [seg]) rest

/-- `collapse_path` from app.rs. -/
def collapse_path (path : Str) : Str :=
  let normalized := normalize_slashes path
  let pr :=
    if normalized.head? == some '/' then
      ("/".data, normalized.dropWhile (fun c => c == '/'))
    else if normalized.length ≥ 2 && normalized[1]? == some ':' then
      (normalized.take 2 ++ "/".data, (normalized.drop 2).dropWhile (fun c => c == '/'))
    else ([], normalized)
  let parts := collapse_fold [] (pr.2.splitOn '/')
  pr.1 ++ List.intercalate ("/".data) parts

/-- Final path component (after the last slash). -/
def file_name_of (p : Str) : Str :=
  match p.reverse.findIdx? (fun c => c == '/') with
  | some j => p.drop (p.length - j)
  | none => p

/-- Everything before the last slash (`rsplit_once('/')`), else empty. -/
def dir_part (p : Str) : Str :=
  match p.reverse.findIdx? (fun c => c == '/') with
  | some j => p.take (p.length - 1 - j)
  | none => []

/-- Split a file name at its last dot, Rust `Path` style: no extension when
there is no dot or when the only dot is the leading one. -/
def split_ext (name : Str) : Option (Str × Str) :=
  match name.reverse.findIdx? (fun c => c == '.') with
  | none => none
  | some j =>
    let idx := name.length - 1 - j
    if idx = 0 then none else some (name.take idx, name.drop (idx + 1))

/-- Rust `Path::file_stem().and_then(to_str).unwrap_or(fallback)` where the
fallback is the whole input, as used in app.rs. -/
def file_stem_or (p : Str) : Str :=
  let name := file_name_of p
  if name.isEmpty || name == ".".data || name == "..".data then p
  else match split_ext name with
    | none => name
    | some (stem, _) => stem

/-- `image_extension` from app.rs. -/
def image_extension (path : Str) : Option Str :=
  let name := file_name_of (normalize_slashes path)
  if name.isEmpty then none
  else match split_ext name with
    | none => none
    | some (_, ext) => some (ext.map ascii_lower)

/-- `is_supported_inline_image_path` from app.rs. -/
def is_supported_inline_image_path (path : Str) : Bool :=
  match image_extension path with
  | some e =>
    e == "png".data || e == "jpg".data || e == "jpeg".data || e == "gif".data
      || e == "webp".data || e == "bmp".data || e == "svg".data || e == "tif".data
      || e == "tiff".data || e == "ico".data || e == "avif".data || e == "heic".data
      || e == "heif".data
  | none => false

/-- `looks_like_external_url` from app.rs. -/
def looks_like_external_url (target : Str) : Bool :=
  let t := (trim target).map ascii_lower
  contains_substring t ("://".data) || starts_with ("data:".data) t

/-- `current_note_dir` from app.rs. -/
def current_note_dir (note_path : Str) : Str := dir_part (normalize_slashes note_path)

/-- `is_path_within` from app.rs. -/
def is_path_within (base candidate : Str) : Bool :=
  let base_norm := (collapse_path base).reverse.dropWhile (fun c => c == '/') |>.reverse
  let candidate_norm := collapse_path candidate
  if base_norm.isEmpty then false
  else candidate_norm == base_norm
    || starts_with (base_norm ++ "/".data) candidate_norm

/-- `strip_wiki_target` from app.rs. -/
def strip_wiki_target (raw : Str) : Str :=
  trim (((trim raw).takeWhile (fun c => !(c == '|'))).takeWhile (fun c => !(c == '#')))

/-- `strip_markdown_image_target` from app.rs. -/
def strip_markdown_image_target (raw : Str) : Str :=
  let trimmed := trim raw
  let base :=
    if trimmed.head? == some '<' then
      trim ((trimmed.dropWhile (fun c => c == '<')).takeWhile (fun c => !(c == '>')))
    else trim (trimmed.takeWhile (fun c => !(is_ws c)))
  trim ((base.takeWhile (fun c => !(c == '#'))).takeWhile (fun c => !(c == '?')))

/-- ImageRenderContext from app.rs; the host's image byte cache becomes an
association list from absolute path to data URI. -/
structure ImageRenderContext where
  vault_path : Str
  current_file : Str
  cache : List (Str × Str)

/-- `image_local_candidates` from app.rs. -/
def image_local_candidates (vault_path note_path target : Str) : List Str :=
  if target.isEmpty || !is_supported_inline_image_path target then []
  else if looks_like_external_url target then []
  else
    let target_norm := normalize_slashes (trim target)
    let vault_norm := collapse_path vault_path
    let is_windows_abs := target_norm.length ≥ 2 && target_norm[1]? == some ':'
    if is_windows_abs then []
    else if target_norm.head? == some '/' then
      [collapse_path (vault_norm ++ "/".data ++ target_norm.dropWhile (fun c => c == '/'))]
    else
      let note_dir := current_note_dir note_path
      let out :=
        (if !note_dir.isEmpty then
          [collapse_path (vault_norm ++ "/".data ++ note_dir ++ "/".data ++ target_norm)]
        else []) ++ [collapse_path (vault_norm ++ "/".data ++ target_norm)]
      let out := out.filter (fun cand => is_path_within vault_norm cand)
      dedup_adjacent (List.insertionSort str_le out)

/-- `resolve_image_preview_html` from app.rs. -/
def resolve_image_preview_html (ctx : Option ImageRenderContext) (target : Str)
    (alt : Option Str) : Option Str :=
  if target.isEmpty || !is_supported_inline_image_path target then none
  else
    let src? : Option Str :=
      if looks_like_external_url target then some target
      else
        match ctx with
        | none => none
        | some c =>
          match (image_local_candidates c.vault_path c.current_file target).find?
              (fun cand => (alist_get? c.cache cand).isSome) with
          | none => none
          | some path => alist_get? c.cache path
    match src? with
    | none => none
    | some src =>
      let altStr := match alt with | some a => a | none => []
      some (("<span class=\"md-inline-image-wrap\" contenteditable=\"false\">").data
        ++ ("<img class=\"md-inline-image\" src=\"").data
        ++ escape_html_attr src ++ ("\" alt=\"").data ++ escape_html_attr altStr
        ++ ("\"/></span>").data)

/-- InlineMatch from app.rs (`class` is a reserved word in Lean and becomes
`cls`). -/
structure InlineMatch where
  start : Nat
  end_ : Nat
  inner_start : Nat
  inner_end : Nat
  open_len : Nat
  close_len : Nat
  cls : Str
  hide_tokens : Bool
  preview_html : Option Str
deriving DecidableEq

/-- The backquote character (primarily to keep it out of the source text of
this file). -/
def backtick_char : Char := Char.ofNat 96

def backslash_run_before (bytes : Str) : Nat → Nat
  | 0 => 0
  | i + 1 =>
    if bytes[i]? == some '\\' then backslash_run_before bytes i + 1 else 0

/-- `is_escaped_at` from app.rs: an odd number of backslashes precedes. -/
def is_escaped_at (bytes : Str) (idx : Nat) : Bool :=
  if idx = 0 then false else decide (backslash_run_before bytes idx % 2 = 1)

def fdp_go (text marker : Str) : Nat → Nat → List Nat
  | 0, _ => []
  | fuel + 1, idx =>
    if idx + marker.length ≤ text.length then
      if (strSlice text idx (idx + marker.length) == marker) && !is_escaped_at text idx then
        idx :: fdp_go text marker fuel (idx + marker.length)
      else fdp_go text marker fuel (idx + 1)
    else []

/-- `find_delimiter_positions` from app.rs. -/
def find_delimiter_positions (text marker : Str) : List Nat :=
  if marker.length = 0 then [] else fdp_go text marker (text.length + 1) 0

def cdm_go (token_len : Nat) (cls : Str) (hide : Bool) (text_len : Nat) :
    Option Nat → List Nat → List InlineMatch
  | pending, [] =>
    match pending with
    | some open_pos => [⟨open_pos, text_len, open_pos, text_len, 0, 0, cls, hide, none⟩]
    | none => []
  | pending, token :: rest =>
    match pending with
    | some open_pos =>
      ⟨open_pos, token + token_len, open_pos + token_len, token,
        token_len, token_len, cls, hide, none⟩
        :: cdm_go token_len cls hide text_len none rest
    | none => cdm_go token_len cls hide text_len (some token) rest

/-- `collect_delimited_matches` from app.rs: pair consecutive unescaped
delimiter tokens; a trailing unmatched opener stays visible to the end. -/
def collect_delimited_matches (text delimiter cls : Str) (hide : Bool) :
    List InlineMatch :=
  if delimiter.length = 0 then []
  else cdm_go delimiter.length cls hide text.length none
    (find_delimiter_positions text delimiter)

/-- `overlaps_existing` from app.rs. -/
def overlaps_existing (ms : List InlineMatch) (start end_ : Nat) : Bool :=
  ms.any (fun x => decide (start < x.end_) && decide (x.start < end_))

/-- `push_non_overlapping` from app.rs. -/
def push_non_overlapping (ms : List InlineMatch) (candidate : InlineMatch) :
    List InlineMatch :=
  if overlaps_existing ms candidate.start candidate.end_ then ms
  else ms ++ [candidate]

def add_all (ms : List InlineMatch) (cands : List InlineMatch) : List InlineMatch :=
  cands.foldl push_non_overlapping ms

/-- Driver shared by the regex `find_iter`/`captures_iter` translations:
try a match at each position, left to right, resuming after each match. -/
def scan_go {α : Type} (step : Nat → Option (α × Nat)) : Nat → Nat → List α
  | 0, _ => []
  | fuel + 1, i =>
    match step i with
    | some (a, j) => a :: scan_go step fuel j
    | none => scan_go step fuel (i + 1)

def scan_iter {α : Type} (text : Str) (step : Nat → Option (α × Nat)) : List α :=
  scan_go step (text.length + 1) 0

/-- Matcher for `RE_CODE`, regex `` `([^`\n]+)` ``. -/
def step_code (text : Str) (i : Nat) : Option (InlineMatch × Nat) :=
  match text.drop i with
  | c :: rest =>
    if c == backtick_char then
      let inner := rest.takeWhile (fun x => !(x == backtick_char || x == '\n'))
      if inner.length = 0 then none
      else if (rest.drop inner.length).head? == some backtick_char then
        some (⟨i, i + inner.length + 2, i + 1, i + 1 + inner.length, 1, 1,
          "hl-code".data, true, none⟩, i + inner.length + 2)
      else none
    else none
  | [] => none

/-- Matcher for `RE_EMBED`, regex `!\[\[([^\]\n]+)\]\]`. -/
def step_embed (image_ctx : Option ImageRenderContext) (text : Str) (i : Nat) :
    Option (InlineMatch × Nat) :=
  let s := text.drop i
  if starts_with ("![[".data) s then
    let inner := (s.drop 3).takeWhile (fun x => !(x == ']' || x == '\n'))
    if inner.length = 0 then none
    else if starts_with ("]]".data) ((s.drop 3).drop inner.length) then
      some (⟨i, i + inner.length + 5, i + 3, i + 3 + inner.length, 3, 2,
        "hl-embed".data, true,
        resolve_image_preview_html image_ctx (strip_wiki_target inner) none⟩,
        i + inner.length + 5)
    else none
  else none

/-- Matcher for `RE_WIKI`, regex `\[\[([^\]]+)\]\]`. -/
def step_wiki (text : Str) (i : Nat) : Option (InlineMatch × Nat) :=
  let s := text.drop i
  if starts_with ("[[".data) s then
    let inner := (s.drop 2).takeWhile (fun x => !(x == ']'))
    if inner.length = 0 then none
    else if starts_with ("]]".data) ((s.drop 2).drop inner.length) then
      some (⟨i, i + inner.length + 4, i + 2, i + 2 + inner.length, 2, 2,
        "hl-link".data, true, none⟩, i + inner.length + 4)
    else none
  else none

/-- Shared matcher for the `\[..\]\(..\)` suffix of markdown links and
images; the inner label may be empty iff `empty_label` is set. -/
def md_bracket_core (empty_label : Bool) (t : Str) : Option (Str × Str × Nat) :=
  match t with
  | '[' :: rest =>
    let label := rest.takeWhile (fun x => !(x == ']' || x == '\n'))
    if label.length = 0 && !empty_label then none
    else
      let rest2 := rest.drop label.length
      if starts_with ("](".data) rest2 then
        let rest3 := rest2.drop 2
        let target := rest3.takeWhile (fun x => !(x == ')' || x == '\n'))
        if target.length = 0 then none
        else if (rest3.drop target.length).head? == some ')' then
          some (label, target, 1 + label.length + 2 + target.length + 1)
        else none
      else none
  | _ => none

/-- Matcher for `RE_MD_IMAGE`, regex `!\[([^\]\n]*)\]\(([^)\n]+)\)`. -/
def step_md_image (image_ctx : Option ImageRenderContext) (text : Str) (i : Nat) :
    Option (InlineMatch × Nat) :=
  match text.drop i with
  | '!' :: rest =>
    match md_bracket_core true rest with
    | some (alt, target, len) =>
      some (⟨i, i + 1 + len, i, i + 1 + len, 0, 0, "hl-embed".data, false,
        resolve_image_preview_html image_ctx (strip_markdown_image_target target)
          (some alt)⟩, i + 1 + len)
    | none => none
  | _ => none

/-- Matcher for `RE_MD_LINK`, regex `\[([^\]\n]+)\]\(([^)\n]+)\)`. -/
def step_md_link (text : Str) (i : Nat) : Option (InlineMatch × Nat) :=
  match md_bracket_core false (text.drop i) with
  | some (_, _, len) =>
    some (⟨i, i + len, i, i + len, 0, 0, "hl-link".data, false, none⟩, i + len)
  | none => none

/-- Matcher for `RE_INLINE_MATH`, regex `\$([^$\n]+)\$`. -/
def step_math (text : Str) (i : Nat) : Option (InlineMatch × Nat) :=
  match text.drop i with
  | '$' :: rest =>
    let inner := rest.takeWhile (fun x => !(x == '$' || x == '\n'))
    if inner.length = 0 then none
    else if (rest.drop inner.length).head? == some '$' then
      some (⟨i, i + inner.length + 2, i + 1, i + 1 + inner.length, 1, 1,
        "hl-math-inline".data, true, none⟩, i + inner.length + 2)
    else none
  | _ => none

/-- Matcher for `RE_FOOTNOTE_REF`, regex `\[\^[^\]\n]+\]`. -/
def step_footnote_ref (text : Str) (i : Nat) : Option (InlineMatch × Nat) :=
  let s := text.drop i
  if starts_with ("[^".data) s then
    let inner := (s.drop 2).takeWhile (fun x => !(x == ']' || x == '\n'))
    if inner.length = 0 then none
    else if ((s.drop 2).drop inner.length).head? == some ']' then
      some (⟨i, i + inner.length + 3, i, i + inner.length + 3, 0, 0,
        "hl-footnote".data, false, none⟩, i + inner.length + 3)
    else none
  else none

/-- Matcher for `RE_INLINE_FOOTNOTE`, regex `\^\[[^\]\n]+\]`. -/
def step_inline_footnote (text : Str) (i : Nat) : Option (InlineMatch × Nat) :=
  let s := text.drop i
  if starts_with ("^[".data) s then
    let inner := (s.drop 2).takeWhile (fun x => !(x == ']' || x == '\n'))
    if inner.length = 0 then none
    else if ((s.drop 2).drop inner.length).head? == some ']' then
      some (⟨i, i + inner.length + 3, i, i + inner.length + 3, 0, 0,
        "hl-footnote".data, false, none⟩, i + inner.length + 3)
    else none
  else none

/-- Matcher for `RE_TAG`: a hash, an ASCII letter, then any run of ASCII
letters, digits, underscores, slashes and dashes. -/
def step_tag (text : Str) (i : Nat) : Option (InlineMatch × Nat) :=
  match text.drop i with
  | '#' :: c1 :: rest2 =>
    if c1.isAlpha then
      let run := rest2.takeWhile (fun x =>
        x.isAlpha || x.isDigit || x == '_' || x == '/' || x == '-')
      some (⟨i, i + 2 + run.length, i, i + 2 + run.length, 0, 0,
        "hl-tag".data, false, none⟩, i + 2 + run.length)
    else none
  | _ => none

/-- Matcher for `RE_BLOCK_ID`, regex `\^[A-Za-z0-9][A-Za-z0-9-]*`. -/
def step_block_id (text : Str) (i : Nat) : Option (InlineMatch × Nat) :=
  match text.drop i with
  | '^' :: c1 :: rest2 =>
    if c1.isAlpha || c1.isDigit then
      let run := rest2.takeWhile (fun x => x.isAlpha || x.isDigit || x == '-')
      some (⟨i, i + 2 + run.length, i, i + 2 + run.length, 0, 0,
        "hl-block-id".data, false, none⟩, i + 2 + run.length)
    else none
  | _ => none

/-- Sort key of the inline pass: `sort_by_key(|m| m.start)` (stable). -/
def start_le (a b : InlineMatch) : Prop := a.start ≤ b.start

instance start_le_decidable : DecidableRel start_le := fun a b =>
  inferInstanceAs (Decidable (a.start ≤ b.start))

/-- Greedy left-to-right selection of non-overlapping matches (the
`disjoint` loop of `highlight_inline`). -/
def disjoint_filter : Nat → List InlineMatch → List InlineMatch
  | _, [] => []
  | last_end, m :: rest =>
    if last_end ≤ m.start then m :: disjoint_filter m.end_ rest
    else disjoint_filter last_end rest

/-- The `caret_inside` test of the output loop of `highlight_inline`:
`caret.map(|c| c >= m.start && c <= m.end).unwrap_or(false)`. -/
def caret_inside_bool (caret : Option Nat) (m : InlineMatch) : Bool :=
  match caret with
  | some c => decide (m.start ≤ c ∧ c ≤ m.end_)
  | none => false

/-- Rendering of one accepted inline span (the body of the output loop of
`highlight_inline`), including its optional preview suffix. -/
def render_one (text : Str) (caret : Option Nat) (m : InlineMatch) : Str :=
  let caret_inside := caret_inside_bool caret m
  (if caret_inside && m.hide_tokens then
    ("<span class=\"md-token md-token-visible\">").data
      ++ escape_html (strSlice text m.start (m.start + m.open_len))
      ++ ("</span><span class=\"").data ++ m.cls ++ ("\">").data
      ++ escape_html (strSlice text m.inner_start m.inner_end)
      ++ ("</span><span class=\"md-token md-token-visible\">").data
      ++ escape_html (strSlice text (m.end_ - m.close_len) m.end_)
      ++ ("</span>").data
  else if caret_inside then
    escape_html (strSlice text m.start m.end_)
  else if m.hide_tokens then
    ("<span class=\"md-token md-token-hidden\">").data
      ++ escape_html (strSlice text m.start (m.start + m.open_len))
      ++ ("</span><span class=\"").data ++ m.cls ++ ("\">").data
      ++ escape_html (strSlice text m.inner_start m.inner_end)
      ++ ("</span><span class=\"md-token md-token-hidden\">").data
      ++ escape_html (strSlice text (m.end_ - m.close_len) m.end_)
      ++ ("</span>").data
  else
    ("<span class=\"").data ++ m.cls ++ ("\">").data
      ++ escape_html (strSlice text m.start m.end_)
      ++ ("</span>").data)
  ++ (match m.preview_html with | some p => p | none => [])

/-- Output assembly of `highlight_inline` over the accepted disjoint spans,
with the running position `pos`. -/
def render_all (text : Str) (caret : Option Nat) : Nat → List InlineMatch → Str
  | pos, [] => escape_html (strSlice text pos text.length)
  | pos, m :: rest =>
    escape_html (strSlice text pos m.start) ++ render_one text caret m
      ++ render_all text caret m.end_ rest

/-- `highlight_inline` from app.rs: collect candidates per construct in the
source's precedence order, discard overlapping candidates, sort by start,
keep a disjoint subsequence, and render. -/
def highlight_inline (text : Str) (caret : Option Nat)
    (image_ctx : Option ImageRenderContext) : Str :=
  let m := add_all [] (scan_iter text (step_code text))
  let m := add_all m (collect_delimited_matches text ("%%".data) ("hl-comment".data) false)
  let m := add_all m (scan_iter text (step_embed image_ctx text))
  let m := add_all m (scan_iter text (step_wiki text))
  let m := add_all m (scan_iter text (step_md_image image_ctx text))
  let m := add_all m (scan_iter text (step_md_link text))
  let m := add_all m (collect_delimited_matches text ("***".data) ("hl-bold hl-italic".data) true)
  let m := add_all m (collect_delimited_matches text ("___".data) ("hl-bold hl-italic".data) true)
  let m := add_all m (collect_delimited_matches text ("**".data) ("hl-bold".data) true)
  let m := add_all m (collect_delimited_matches text ("__".data) ("hl-bold".data) true)
  let m := add_all m (collect_delimited_matches text ("~~".data) ("hl-strike".data) true)
  let m := add_all m (collect_delimited_matches text ("==".data) ("hl-mark".data) true)
  let m := add_all m (collect_delimited_matches text ("*".data) ("hl-italic".data) true)
  let m := add_all m (collect_delimited_matches text ("_".data) ("hl-italic".data) true)
  let m := add_all m (scan_iter text (step_math text))
  let m := add_all m (scan_iter text (step_footnote_ref text))
  let m := add_all m (scan_iter text (step_inline_footnote text))
  let m := add_all m (scan_iter text (step_tag text))
  let m := add_all m (scan_iter text (step_block_id text))
  render_all text caret 0 (disjoint_filter 0 (List.insertionSort start_le m))

/-- Caret containment in a span, as a proposition (the inline pass computes
`caret.map(|c| c >= m.start && c <= m.end).unwrap_or(false)`). -/
def caret_within (caret : Option Nat) (m : InlineMatch) : Prop :=
  match caret with
  | some c => m.start ≤ c ∧ c ≤ m.end_
  | none => False

instance caret_within_decidable (caret : Option Nat) (m : InlineMatch) :
    Decidable (caret_within caret m) :=
  match caret with
  | some c => inferInstanceAs (Decidable (m.start ≤ c ∧ c ≤ m.end_))
  | none => inferInstanceAs (Decidable False)

/-- HeadingCache from app.rs. -/
structure HeadingCache where
  level : Nat
  text : Str
  line : Nat
deriving DecidableEq

/-- FileCache from app.rs. -/
structure FileCache where
  headings : List HeadingCache
  tags : List Str
  links : List Str
deriving DecidableEq

/-- MetadataCacheState from app.rs, with `HashMap`s as association lists. -/
structure MetadataCacheState where
  file_cache : List (Str × FileCache)
  resolved_links : List (Str × List (Str × Nat))
  unresolved_links : List (Str × List (Str × Nat))
  backlinks : List (Str × List Str)
  tags_index : List (Str × List Str)
deriving DecidableEq

/-- Rust `str::lines`: split on newlines, drop a final empty line, strip a
trailing carriage return from each line. -/
def lines_of (text : Str) : List Str :=
  if text.isEmpty then []
  else
    let parts := text.splitOn '\n'
    let parts := if text.getLast? == some '\n' then parts.dropLast else parts
    parts.map (fun l => if l.getLast? == some '\r' then l.dropLast else l)

/-- Matcher for `RE_HEADING`, regex `^(#{1,6})[ \t]+(.+?)\s*$`: up to six
hashes, at least one space or tab, then at least one more character; the
heading text is the remainder trimmed (as the caller trims capture 2). -/
def match_heading (line : Str) : Option (Nat × Str) :=
  let hashes := line.takeWhile (fun c => c == '#')
  let rest := line.drop hashes.length
  if 1 ≤ hashes.length ∧ hashes.length ≤ 6 then
    match rest.head? with
    | some c =>
      if (c == ' ' || c == '\t') && decide (rest.length ≥ 2) then
        some (hashes.length, trim rest)
      else none
    | none => none
  else none

/-- Matcher capturing the inner text of a wiki link `\[\[([^\]]+)\]\]`. -/
def step_wiki_capture (text : Str) (i : Nat) : Option (Str × Nat) :=
  let s := text.drop i
  if starts_with ("[[".data) s then
    let inner := (s.drop 2).takeWhile (fun x => !(x == ']'))
    if inner.length = 0 then none
    else if starts_with ("]]".data) ((s.drop 2).drop inner.length) then
      some (inner, i + inner.length + 4)
    else none
  else none

/-- Matcher capturing the target of extract_file_cache's `RE_MD_LINK`,
regex `!?\[[^\]\n]*\]\(([^)\n]+)\)` (the label may be empty here). -/
def step_md_capture (text : Str) (i : Nat) : Option (Str × Nat) :=
  match text.drop i with
  | '!' :: rest =>
    match md_bracket_core true rest with
    | some (_, target, len) => some (target, i + 1 + len)
    | none => none
  | s =>
    match md_bracket_core true s with
    | some (_, target, len) => some (target, i + len)
    | none => none

/-- Matcher capturing a whole `RE_TAG` match. -/
def step_tag_capture (text : Str) (i : Nat) : Option (Str × Nat) :=
  match text.drop i with
  | '#' :: c1 :: rest2 =>
    if c1.isAlpha then
      let run := rest2.takeWhile (fun x =>
        x.isAlpha || x.isDigit || x == '_' || x == '/' || x == '-')
      some ('#' :: c1 :: run, i + 2 + run.length)
    else none
  | _ => none

/-- Heading extraction loop of `extract_file_cache` (1-based line numbers). -/
def headings_of (text : Str) : List HeadingCache :=
  (lines_of text).enum.filterMap (fun p =>
    match match_heading p.2 with
    | some lv => some ⟨lv.1, lv.2, p.1 + 1⟩
    | none => none)

/-- Tag extraction loop of `extract_file_cache`: per line, every tag match,
hashes stripped, ASCII-lowercased, in text order (before sort/dedup). -/
def tags_occurrences (text : Str) : List Str :=
  ((lines_of text).map (fun line =>
    (scan_iter line (step_tag_capture line)).map (fun t =>
      (t.dropWhile (fun c => c == '#')).map ascii_lower))).flatten

/-- Wiki-link extraction loop of `extract_file_cache`: raw targets in text
order, alias and heading suffix stripped, before sort/dedup. -/
def wiki_raw_links (text : Str) : List Str :=
  (scan_iter text (step_wiki_capture text)).filterMap (fun raw_inner =>
    let left := raw_inner.takeWhile (fun c => !(c == '|'))
    let link := trim (left.takeWhile (fun c => !(c == '#')))
    if link.isEmpty then none else some (normalize_rel_path link))

/-- Markdown-link extraction loop of `extract_file_cache`: raw targets in
text order, URL/mailto and pure-anchor targets skipped, before sort/dedup. -/
def md_raw_links (text : Str) : List Str :=
  (scan_iter text (step_md_capture text)).filterMap (fun raw_target0 =>
    let raw_target := trim raw_target0
    let target := trim_matches '>' (trim_matches '<' raw_target)
    if target.isEmpty || target.head? == some '#' then none
    else
      let lowered := target.map ascii_lower
      if contains_substring lowered ("://".data)
          || starts_with ("mailto:".data) lowered then none
      else
        let cleaned := trim ((target.takeWhile (fun c => !(c == '#'))).takeWhile
          (fun c => !(c == '?')))
        if cleaned.isEmpty then none else some (normalize_rel_path cleaned))

/-- `extract_file_cache` from app.rs: headings, tags and links of one note;
tags and links are sorted and deduplicated. -/
def extract_file_cache (text : Str) : FileCache :=
  ⟨headings_of text,
    dedup_adjacent (List.insertionSort str_le (tags_occurrences text)),
    dedup_adjacent (List.insertionSort str_le (wiki_raw_links text ++ md_raw_links text))⟩

/-- `resolve_linkpath` from app.rs. -/
def resolve_linkpath (linkpath source_path : Str)
    (file_lookup : List (Str × Str)) (stem_lookup : List (Str × List Str)) :
    Option Str :=
  let raw := normalize_rel_path linkpath
  if raw.isEmpty then none
  else
    let raw_has_ext := ends_with (".md".data) (raw.map ascii_lower)
    let cand1 := if raw_has_ext then raw else raw ++ ".md".data
    let more :=
      if raw.any (fun c => c == '/') then
        let source_dir := dir_part source_path
        if source_dir.isEmpty then []
        else
          let joined := normalize_rel_path (source_dir ++ "/".data ++ raw)
          [if raw_has_ext then joined else joined ++ ".md".data]
      else []
    match (cand1 :: more).findSome? (fun c => alist_get? file_lookup (c.map ascii_lower)) with
    | some found => some found
    | none =>
      let stem := (file_stem_or raw).map ascii_lower
      match alist_get? stem_lookup stem with
      | some cands => if cands.length = 1 then cands.head? else none
      | none => none

/-- First loop of `build_metadata_cache`: build the case-insensitive path
lookup, the stem lookup, the per-note file cache and the raw tag index. -/
def build_phase1 (notes : List (Str × Str)) (files : List Str) :
    List (Str × Str) × List (Str × List Str) × List (Str × List Str)
      × List (Str × FileCache) :=
  files.foldl (fun st path =>
    let file_lookup := alist_set st.1 (path.map ascii_lower) path
    let stem := (file_stem_or path).map ascii_lower
    let stem_lookup := alist_update st.2.1 stem [] (fun l => l ++ [path])
    let text := match alist_get? notes path with | some t => t | none => []
    let cache := extract_file_cache text
    let tags_index := cache.tags.foldl
      (fun ti tag => alist_update ti tag [] (fun l => l ++ [path])) st.2.2.1
    let file_cache := alist_set st.2.2.2 path cache
    (file_lookup, stem_lookup, tags_index, file_cache))
    ([], [], [], [])

/-- Link-resolution step of the second loop of `build_metadata_cache`: one
link of one note updates the resolved or unresolved counts and, when
resolved, pushes the source path onto the target's backlinks. -/
def link_step (file_lookup : List (Str × Str)) (stem_lookup : List (Str × List Str))
    (path : Str)
    (st : List (Str × List (Str × Nat)) × List (Str × List (Str × Nat))
      × List (Str × List Str)) (link : Str) :
    List (Str × List (Str × Nat)) × List (Str × List (Str × Nat))
      × List (Str × List Str) :=
  match resolve_linkpath link path file_lookup stem_lookup with
  | some target =>
    (alist_update st.1 path [] (fun m => alist_update m target 0 (fun n => n + 1)),
      st.2.1,
      alist_update st.2.2 target [] (fun l => l ++ [path]))
  | none =>
    (st.1,
      alist_update st.2.1 path [] (fun m => alist_update m link 0 (fun n => n + 1)),
      st.2.2)

/-- Second loop of `build_metadata_cache`: every link of every note, in file
order. -/
def build_phase2 (file_lookup : List (Str × Str)) (stem_lookup : List (Str × List Str))
    (file_cache : List (Str × FileCache)) (files : List Str) :
    List (Str × List (Str × Nat)) × List (Str × List (Str × Nat))
      × List (Str × List Str) :=
  files.foldl (fun st path =>
    let cache := match alist_get? file_cache path with | some c => c | none => ⟨[], [], []⟩
    cache.links.foldl (link_step file_lookup stem_lookup path) st)
    ([], [], [])

/-- `build_metadata_cache` from app.rs: two passes over the file list, then
sort and deduplicate every tags-index and backlinks value. -/
def build_metadata_cache (notes : List (Str × Str)) (files : List Str) :
    MetadataCacheState :=
  let p1 := build_phase1 notes files
  let p2 := build_phase2 p1.1 p1.2.1 p1.2.2.2 files
  ⟨p1.2.2.2,
    p2.1,
    p2.2.1,
    (p2.2.2).map (fun kv => (kv.1, dedup_adjacent (List.insertionSort str_le kv.2))),
    (p1.2.2.1).map (fun kv => (kv.1, dedup_adjacent (List.insertionSort str_le kv.2)))⟩

/-- A resolved-link entry exists: `resolved_links[p]` has a key `t`. -/
def resolved_has (r : List (Str × List (Str × Nat))) (p t : Str) : Prop :=
  ∃ m, alist_get? r p = some m ∧ (alist_get? m t).isSome

/-- A backlink entry exists: `backlinks[t]` contains `p`. -/
def backlinks_has (b : List (Str × List Str)) (p t : Str) : Prop :=
  ∃ l, alist_get? b t = some l ∧ p ∈ l

/-- Modelled from the spec (§8): the untouched spans of the original text
interleaved with each change's inserted text, in sorted change order.  The
span before a change is the original text between the previous change's end
(initially 0) and that change's start; the final span runs to the end. -/
def spec_pieces (text : Str) : Nat → List TextChange → List Str
  | prev, [] => [text.drop prev]
  | prev, c :: rest =>
    (text.take c.start).drop prev :: c.insert :: spec_pieces text c.end_ rest

/-- Modelled from the spec (§8): concatenation of the untouched spans and the
inserted strings. -/
def spec_assembled (text : Str) (changes : List TextChange) : Str :=
  (spec_pieces text 0 changes).flatten

/-- Modelled from the spec (§4.1): the per-change endpoint remap rule — a
position before the change's start is unaffected, a position within
`[start, end]` collapses to `start + insert.length`, and a position after
`end` shifts by `insert.length - (end - start)`, floored at 0. -/
def spec_remap_step (pos : Nat) (c : TextChange) : Nat :=
  if pos < c.start then pos
  else if c.start ≤ pos ∧ pos ≤ c.end_ then c.start + c.insert.length
  else ((pos : Int) + (c.insert.length : Int) - ((c.end_ : Int) - (c.start : Int))).toNat

/-- Modelled from the spec (§4.1): remapping an endpoint through every sorted
change in order. -/
def spec_remap (pos : Nat) (changes : List TextChange) : Nat :=
  changes.foldl spec_remap_step pos

/-- Per-line outdent transform and block reassembly of the non-cursor branch
of `indent_or_outdent_transaction` (named here so the theorem below can spell
the transaction it produces). -/
def outdent_block_transformed (s : EditorSnapshot) : Str :=
  let text := s.text
  let selection := s.selection.clamp text.length
  let block := strSlice text (line_start text selection.start) (line_end text selection.end_)
  List.intercalate "\n".data ((block.splitOn '\n').map (fun line =>
    if line.head? == some '\t' then line.drop 1 else line.drop (outdent_space_count line)))

/-! Helper lemmas about the transaction engine. -/

/-- Unfolding lemma for the success branch of `apply_transaction`. -/
theorem apply_transaction_ok_eq (s : EditorSnapshot) (tx : Transaction)
    (n : List TextChange)
    (h : normalize_changes tx.changes s.text.length = Except.ok n) :
    s.apply_transaction tx =
      (let next_text := if n.isEmpty then s.text else apply_changes_to_text s.text n
       let next_selection :=
         match tx.selection_after with
         | some sel => sel.clamp next_text.length
         | none =>
           (Selection.new (map_position_through_changes s.selection.start n)
             (map_position_through_changes s.selection.end_ n)).clamp next_text.length
       let text_changed : Bool := decide (s.text ≠ next_text)
       let selection_changed : Bool := decide (s.selection ≠ next_selection)
       let next_revision := if text_changed then s.revision + 1 else s.revision
       (⟨next_text, next_selection, next_revision⟩,
         Except.ok ⟨text_changed, selection_changed, next_revision⟩)) := by
  unfold EditorSnapshot.apply_transaction
  rw [h]

/-- Claim C1: whenever `apply_transaction` returns an error (an invalid range
or overlapping changes), the snapshot — its text, selection and revision — is
left unchanged. -/
theorem C1_apply_transaction_error_leaves_state_unchanged
    (s : EditorSnapshot) (tx : Transaction) (e : CoreError)
    (h : (s.apply_transaction tx).2 = Except.error e) :
    (s.apply_transaction tx).1 = s := by
  cases hn : normalize_changes tx.changes s.text.length with
  | error e2 =>
    unfold EditorSnapshot.apply_transaction
    rw [hn]
  | ok l =>
    rw [apply_transaction_ok_eq s tx l hn] at h
    simp at h

/-- Witness for C1: the overlapping changes `[(1,4),(3,5)]` on `"abcdef"` fail
with `OverlappingChanges` and leave the snapshot — in particular its text
`"abcdef"` — unchanged. -/
theorem C1_witness :
    ((EditorSnapshot.new ("abcdef".data)).apply_transaction
        ⟨[⟨1, 4, "x".data⟩, ⟨3, 5, "y".data⟩], none, ChangeOrigin.Command, "bad".data⟩).2
      = Except.error (CoreError.OverlappingChanges 1 4 3 5)
    ∧ ((EditorSnapshot.new ("abcdef".data)).apply_transaction
        ⟨[⟨1, 4, "x".data⟩, ⟨3, 5, "y".data⟩], none, ChangeOrigin.Command, "bad".data⟩).1
      = EditorSnapshot.new ("abcdef".data) :=
  ⟨by decide,
    C1_apply_transaction_error_leaves_state_unchanged _ _
      (CoreError.OverlappingChanges 1 4 3 5) (by decide)⟩

/-- Claim C5: across both mutation entry points, the revision is bumped by
exactly 1 iff the text changed (even if only the selection changed), the
outcome reports the post-call revision and both change flags, and the
revision never decreases. -/
theorem C5_revision_bumped_iff_text_changed :
    (∀ (s : EditorSnapshot) (tx : Transaction) (s' : EditorSnapshot) (o : ApplyOutcome),
      s.apply_transaction tx = (s', Except.ok o) →
        s'.revision = (if s.text = s'.text then s.revision else s.revision + 1)
        ∧ o.revision = s'.revision
        ∧ o.text_changed = decide (s.text ≠ s'.text)
        ∧ o.selection_changed = decide (s.selection ≠ s'.selection)
        ∧ s.revision ≤ s'.revision)
    ∧ (∀ (s : EditorSnapshot) (new_text : Str) (sel : Selection),
        (s.replace_from_input new_text sel).1.revision
          = (if s.text = (s.replace_from_input new_text sel).1.text then s.revision
             else s.revision + 1)
        ∧ (s.replace_from_input new_text sel).2.revision
          = (s.replace_from_input new_text sel).1.revision
        ∧ (s.replace_from_input new_text sel).2.text_changed
          = decide (s.text ≠ (s.replace_from_input new_text sel).1.text)
        ∧ (s.replace_from_input new_text sel).2.selection_changed
          = decide (s.selection ≠ (s.replace_from_input new_text sel).1.selection)
        ∧ s.revision ≤ (s.replace_from_input new_text sel).1.revision) := by
  constructor
  · intro s tx s' o h
    cases hn : normalize_changes tx.changes s.text.length with
    | error e =>
      unfold EditorSnapshot.apply_transaction at h
      rw [hn] at h
      simp at h
    | ok n =>
      rw [apply_transaction_ok_eq s tx n hn] at h
      simp only [Prod.mk.injEq, Except.ok.injEq] at h
      obtain ⟨hs, ho⟩ := h
      subst hs
      subst ho
      refine ⟨?_, rfl, rfl, rfl, ?_⟩
      · dsimp only
        by_cases hx : s.text = (if n.isEmpty then s.text else apply_changes_to_text s.text n)
        · rw [if_pos hx, ← hx]
          simp
        · rw [if_neg hx]
          simpa using hx
      · dsimp only
        by_cases hd : decide
            (s.text ≠ (if n.isEmpty then s.text else apply_changes_to_text s.text n)) = true
        · rw [if_pos hd]
          omega
        · rw [if_neg hd]
  · intro s new_text sel
    unfold EditorSnapshot.replace_from_input
    by_cases hx : s.text = new_text
    · simp [← hx]
    · simp [hx]

/-- Witness for C5: a transaction that changes the text bumps the revision
from 0 to 1 and reports it; a full-buffer replacement with identical text
keeps revision 0 even though the selection moves. -/
theorem C5_witness :
    ((EditorSnapshot.new ("hello".data)).apply_transaction
        ⟨[⟨0, 0, "x".data⟩], none, ChangeOrigin.Input, "ins".data⟩
      = (⟨"xhello".data, Selection.cursor 6, 1⟩, Except.ok ⟨true, true, 1⟩))
    ∧ (⟨"xhello".data, Selection.cursor 6, 1⟩ : EditorSnapshot).revision
        = (if ("hello".data : Str) = "xhello".data then 0 else 0 + 1)
    ∧ ((EditorSnapshot.new ("hello".data)).replace_from_input ("hello".data)
        (Selection.cursor 0)).1.revision
      = (if ("hello".data : Str)
            = ((EditorSnapshot.new ("hello".data)).replace_from_input ("hello".data)
                (Selection.cursor 0)).1.text
         then (0 : Nat) else 0 + 1) :=
  ⟨by decide,
    ((C5_revision_bumped_iff_text_changed.1 (EditorSnapshot.new ("hello".data))
        ⟨[⟨0, 0, "x".data⟩], none, ChangeOrigin.Input, "ins".data⟩
        ⟨"xhello".data, Selection.cursor 6, 1⟩ ⟨true, true, 1⟩ (by decide)).1 : _),
    (C5_revision_bumped_iff_text_changed.2 (EditorSnapshot.new ("hello".data))
        ("hello".data) (Selection.cursor 0)).1⟩



theorem apply_changes_go_eq_spec (text : Str) (l : List TextChange) :
    ∀ prev : Nat, apply_changes_go text prev l = (spec_pieces text prev l).flatten := by
  induction l with
  | nil =>
    intro prev
    show strSlice text prev text.length = _
    unfold strSlice spec_pieces
    rw [← List.length_drop prev text, List.take_length]
    simp
  | cons c rest ih =>
    intro prev
    unfold apply_changes_go spec_pieces
    rw [ih c.end_]
    simp only [List.flatten_cons, List.drop_take, List.append_assoc]
    rfl

theorem normalize_changes_ok_facts (changes : List TextChange) (len : Nat)
    (n : List TextChange) (h : normalize_changes changes len = Except.ok n) :
    n = List.insertionSort change_le changes
    ∧ find_invalid n len = none ∧ find_overlap n = none := by
  simp only [normalize_changes] at h
  cases h1 : find_invalid (List.insertionSort change_le changes) len with
  | some e => rw [h1] at h; cases h
  | none =>
    rw [h1] at h
    cases h2 : find_overlap (List.insertionSort change_le changes) with
    | some e => rw [h2] at h; cases h
    | none =>
      rw [h2] at h
      obtain rfl := (Except.ok.inj h)
      exact ⟨rfl, h1, h2⟩

theorem find_invalid_none_facts (l : List TextChange) (len : Nat) :
    find_invalid l len = none → ∀ c ∈ l, c.start ≤ c.end_ ∧ c.end_ ≤ len := by
  induction l with
  | nil => intro _ c hc; cases hc
  | cons a rest ih =>
    intro h c hc
    unfold find_invalid at h
    by_cases ha : a.start > a.end_ ∨ a.end_ > len
    · rw [if_pos ha] at h; cases h
    · rw [if_neg ha] at h
      push_neg at ha
      cases hc with
      | head => exact ⟨by omega, by omega⟩
      | tail _ hm => exact ih h c hm

/-- Claim C2: for every transaction whose changes validate (in-bounds and
non-overlapping), the text produced by `apply_transaction` is exactly the
concatenation, in sorted change order, of the untouched spans of the
original text interleaved with each change's insert string. -/
theorem C2_apply_transaction_text_order_preserving
    (s : EditorSnapshot) (tx : Transaction) (n : List TextChange)
    (h : normalize_changes tx.changes s.text.length = Except.ok n) :
    (s.apply_transaction tx).1.text = spec_assembled s.text n := by
  rw [apply_transaction_ok_eq s tx n h]
  dsimp only
  by_cases hn : n.isEmpty
  · obtain rfl : n = [] := by
      cases n with
      | nil => rfl
      | cons a l => simp [List.isEmpty] at hn
    rw [if_pos hn]
    unfold spec_assembled spec_pieces
    simp
  · rw [if_neg hn]
    unfold spec_assembled apply_changes_to_text
    exact apply_changes_go_eq_spec s.text n 0

/-- Witness for C2: the two-change transaction from the repository's own
test, `[(0,0,">>"), (11,11,"<<")]` on `"hello world"`. -/
theorem C2_witness :
    normalize_changes [⟨0, 0, ">>".data⟩, ⟨11, 11, "<<".data⟩]
        (List.length ("hello world".data)) = Except.ok [⟨0, 0, ">>".data⟩, ⟨11, 11, "<<".data⟩]
    ∧ ((⟨"hello world".data, ⟨0, 0⟩, 0⟩ : EditorSnapshot).apply_transaction
        ⟨[⟨0, 0, ">>".data⟩, ⟨11, 11, "<<".data⟩], some (Selection.cursor 13),
          ChangeOrigin.Command, "wrap".data⟩).1.text
      = spec_assembled ("hello world".data) [⟨0, 0, ">>".data⟩, ⟨11, 11, "<<".data⟩] :=
  ⟨by decide,
    C2_apply_transaction_text_order_preserving
      (⟨"hello world".data, ⟨0, 0⟩, 0⟩ : EditorSnapshot)
      ⟨[⟨0, 0, ">>".data⟩, ⟨11, 11, "<<".data⟩], some (Selection.cursor 13),
        ChangeOrigin.Command, "wrap".data⟩
      [⟨0, 0, ">>".data⟩, ⟨11, 11, "<<".data⟩] (by decide)⟩



theorem map_position_step_eq_spec (pos : Nat) (c : TextChange) (h : c.start ≤ c.end_) :
    map_position_step pos c = spec_remap_step pos c := by
  unfold map_position_step spec_remap_step
  by_cases h1 : pos < c.start
  · rw [if_pos h1, if_pos h1]
  · rw [if_neg h1, if_neg h1]
    by_cases h2 : pos ≤ c.end_
    · rw [if_pos h2, if_pos ⟨Nat.le_of_not_lt h1, h2⟩]
    · rw [if_neg h2, if_neg (show ¬(c.start ≤ pos ∧ pos ≤ c.end_) from fun hh => h2 hh.2)]
      show (if c.insert.length ≥ c.end_ - c.start
          then pos + (c.insert.length - (c.end_ - c.start))
          else pos - (c.end_ - c.start - c.insert.length))
        = ((pos : Int) + (c.insert.length : Int) - ((c.end_ : Int) - (c.start : Int))).toNat
      split <;> omega

theorem map_position_eq_spec_remap (l : List TextChange)
    (h : ∀ c ∈ l, c.start ≤ c.end_) :
    ∀ pos : Nat, map_position_through_changes pos l = spec_remap pos l := by
  induction l with
  | nil => intro pos; rfl
  | cons c rest ih =>
    intro pos
    unfold map_position_through_changes spec_remap
    simp only [List.foldl_cons]
    rw [map_position_step_eq_spec pos c (h c (by simp))]
    exact ih (fun d hd => h d (List.mem_cons_of_mem c hd)) _

/-- Claim C3: with `selection_after = None`, `apply_transaction` remaps both
endpoints of the prior selection through every sorted change by the spec's
rule, then normalizes the pair and clamps it to the new length; with
`selection_after` given, that selection is used, clamped to the new length. -/
theorem C3_selection_remap (s : EditorSnapshot) (tx : Transaction)
    (n : List TextChange)
    (h : normalize_changes tx.changes s.text.length = Except.ok n) :
    (tx.selection_after = none →
      (s.apply_transaction tx).1.selection =
        (Selection.new (spec_remap s.selection.start n)
          (spec_remap s.selection.end_ n)).clamp (s.apply_transaction tx).1.text.length)
    ∧ ∀ sel, tx.selection_after = some sel →
      (s.apply_transaction tx).1.selection
        = sel.clamp (s.apply_transaction tx).1.text.length := by
  have hv := find_invalid_none_facts n s.text.length (normalize_changes_ok_facts _ _ _ h).2.1
  rw [apply_transaction_ok_eq s tx n h]
  constructor
  · intro hnone
    rw [hnone]
    dsimp only
    rw [map_position_eq_spec_remap n (fun c hc => (hv c hc).1) s.selection.start,
      map_position_eq_spec_remap n (fun c hc => (hv c hc).1) s.selection.end_]
  · intro sel hsel
    rw [hsel]

/-- Witness for C3: replacing `[1,3)` of `"abcdef"` by `"XY"` with prior
selection `(2,5)` and no `selection_after`. -/
theorem C3_witness :
    normalize_changes [⟨1, 3, "XY".data⟩] (List.length ("abcdef".data))
      = Except.ok [⟨1, 3, "XY".data⟩]
    ∧ ((⟨"abcdef".data, ⟨2, 5⟩, 0⟩ : EditorSnapshot).apply_transaction
        ⟨[⟨1, 3, "XY".data⟩], none, ChangeOrigin.Input, "t".data⟩).1.selection
      = (Selection.new (spec_remap 2 [⟨1, 3, "XY".data⟩])
          (spec_remap 5 [⟨1, 3, "XY".data⟩])).clamp
          ((⟨"abcdef".data, ⟨2, 5⟩, 0⟩ : EditorSnapshot).apply_transaction
            ⟨[⟨1, 3, "XY".data⟩], none, ChangeOrigin.Input, "t".data⟩).1.text.length :=
  ⟨by decide,
    (C3_selection_remap (⟨"abcdef".data, ⟨2, 5⟩, 0⟩ : EditorSnapshot)
      ⟨[⟨1, 3, "XY".data⟩], none, ChangeOrigin.Input, "t".data⟩
      [⟨1, 3, "XY".data⟩] (by decide)).1 rfl⟩

theorem Selection.new_of_le (a b : Nat) (hab : a ≤ b) : Selection.new a b = ⟨a, b⟩ := by
  unfold Selection.new
  rw [if_pos hab]

theorem Selection.clamp_of_le (a b len : Nat) (hab : a ≤ b) (hb : b ≤ len) :
    Selection.clamp ⟨a, b⟩ len = ⟨a, b⟩ := by
  unfold Selection.clamp
  show Selection.new (min a len) (min b len) = _
  rw [Nat.min_eq_left (hab.trans hb), Nat.min_eq_left hb]
  exact Selection.new_of_le a b hab

/-- Counterexample to claim C4: the selection remap is not idempotent.  For
the valid, sorted, non-overlapping change list `[(0,0,"ab")]` (an insertion
at offset 0) and position 0, remapping once gives 2 but remapping the
remapped position again gives 4. -/
theorem C4_counterexample :
    normalize_changes [⟨0, 0, "ab".data⟩] 6 = Except.ok [⟨0, 0, "ab".data⟩]
    ∧ map_position_through_changes 0 [⟨0, 0, "ab".data⟩] = 2
    ∧ map_position_through_changes
        (map_position_through_changes 0 [⟨0, 0, "ab".data⟩]) [⟨0, 0, "ab".data⟩] = 4
    ∧ map_position_through_changes
        (map_position_through_changes 0 [⟨0, 0, "ab".data⟩]) [⟨0, 0, "ab".data⟩]
      ≠ map_position_through_changes 0 [⟨0, 0, "ab".data⟩] := by
  refine ⟨by decide, by decide, by decide, by decide⟩

/-- Claim C4 as amended: the remap is not idempotent, but the spec's law
holds in its double-application reading — applying a transaction with
`selection_after = None` twice, the second application starting from the
already-remapped selection, produces exactly the selection a second remap of
each endpoint (normalized and clamped to the final length) produces from the
original, provided the first remapped pair was already in order and within
bounds. -/
theorem C4_amended_double_apply_is_double_remap
    (s : EditorSnapshot) (tx : Transaction) (n : List TextChange)
    (hsel : tx.selection_after = none)
    (h1 : normalize_changes tx.changes s.text.length = Except.ok n)
    (hle : map_position_through_changes s.selection.start n
      ≤ map_position_through_changes s.selection.end_ n)
    (hlen : map_position_through_changes s.selection.end_ n
      ≤ (s.apply_transaction tx).1.text.length)
    (h2 : normalize_changes tx.changes (s.apply_transaction tx).1.text.length
      = Except.ok n) :
    (((s.apply_transaction tx).1).apply_transaction tx).1.selection =
      (Selection.new
        (map_position_through_changes
          (map_position_through_changes s.selection.start n) n)
        (map_position_through_changes
          (map_position_through_changes s.selection.end_ n) n)).clamp
        ((((s.apply_transaction tx).1).apply_transaction tx).1.text.length) := by
  have htext : (s.apply_transaction tx).1.text
      = (if n.isEmpty then s.text else apply_changes_to_text s.text n) := by
    rw [apply_transaction_ok_eq s tx n h1]
  rw [htext] at hlen
  have hsel1 : (s.apply_transaction tx).1.selection
      = ⟨map_position_through_changes s.selection.start n,
        map_position_through_changes s.selection.end_ n⟩ := by
    rw [apply_transaction_ok_eq s tx n h1]
    dsimp only
    rw [hsel]
    dsimp only
    rw [Selection.new_of_le _ _ hle]
    exact Selection.clamp_of_le _ _ _ hle hlen
  rw [apply_transaction_ok_eq (s.apply_transaction tx).1 tx n h2]
  dsimp only
  rw [hsel]
  dsimp only
  rw [hsel1]

/-- Witness for C4 (amended): inserting `"ab"` at offset 0 of `"abcdef"` with
prior selection `(1,3)`; the engine's second application lands on the
doubly-remapped selection `(5,7)`. -/
theorem C4_amended_witness :
    normalize_changes [⟨0, 0, "ab".data⟩] (List.length ("abcdef".data))
      = Except.ok [⟨0, 0, "ab".data⟩]
    ∧ ((((⟨"abcdef".data, ⟨1, 3⟩, 0⟩ : EditorSnapshot).apply_transaction
          ⟨[⟨0, 0, "ab".data⟩], none, ChangeOrigin.Input, "i".data⟩).1).apply_transaction
          ⟨[⟨0, 0, "ab".data⟩], none, ChangeOrigin.Input, "i".data⟩).1.selection
      = (Selection.new
          (map_position_through_changes
            (map_position_through_changes 1 [⟨0, 0, "ab".data⟩]) [⟨0, 0, "ab".data⟩])
          (map_position_through_changes
            (map_position_through_changes 3 [⟨0, 0, "ab".data⟩]) [⟨0, 0, "ab".data⟩])).clamp
          ((((⟨"abcdef".data, ⟨1, 3⟩, 0⟩ : EditorSnapshot).apply_transaction
            ⟨[⟨0, 0, "ab".data⟩], none, ChangeOrigin.Input, "i".data⟩).1).apply_transaction
            ⟨[⟨0, 0, "ab".data⟩], none, ChangeOrigin.Input, "i".data⟩).1.text.length :=
  ⟨by decide,
    C4_amended_double_apply_is_double_remap
      (⟨"abcdef".data, ⟨1, 3⟩, 0⟩ : EditorSnapshot)
      ⟨[⟨0, 0, "ab".data⟩], none, ChangeOrigin.Input, "i".data⟩
      [⟨0, 0, "ab".data⟩] rfl (by decide) (by decide) (by decide) (by decide)⟩

theorem Selection.clamp_facts (sel : Selection) (len : Nat) :
    (sel.clamp len).start ≤ (sel.clamp len).end_ ∧ (sel.clamp len).end_ ≤ len := by
  unfold Selection.clamp Selection.new
  split <;> refine ⟨?_, ?_⟩ <;> dsimp only <;> omega

theorem Selection.clamp_cursor (p len : Nat) (h : p ≤ len) :
    Selection.clamp (Selection.cursor p) len = Selection.cursor p :=
  Selection.clamp_of_le p p len (Nat.le_refl p) h

theorem normalize_single (c : TextChange) (len : Nat) (h1 : c.start ≤ c.end_)
    (h2 : c.end_ ≤ len) : normalize_changes [c] len = Except.ok [c] := by
  simp only [normalize_changes]
  have hs : List.insertionSort change_le [c] = [c] := rfl
  rw [hs]
  unfold find_invalid
  rw [if_neg (by omega)]
  rfl

theorem apply_changes_single (text : Str) (c : TextChange) :
    apply_changes_to_text text [c] = text.take c.start ++ c.insert ++ text.drop c.end_ := by
  show strSlice text 0 c.start ++ c.insert ++ strSlice text c.end_ text.length = _
  unfold strSlice
  rw [List.drop_zero, Nat.sub_zero, ← List.length_drop c.end_ text, List.take_length]

theorem apply_markdown_command_eq (s : EditorSnapshot) (cmd : MarkdownCommand)
    (tx : Transaction) (hb : build_markdown_transaction s cmd = some tx)
    (s' : EditorSnapshot) (o : ApplyOutcome)
    (ha : s.apply_transaction tx = (s', Except.ok o)) :
    apply_markdown_command s cmd = (s', Except.ok (o.text_changed || o.selection_changed)) := by
  have hstep : apply_markdown_command s cmd
      = (match s.apply_transaction tx with
        | (s2, Except.error e) => (s2, Except.error e)
        | (s2, Except.ok outcome) =>
          (s2, Except.ok (outcome.text_changed || outcome.selection_changed))) := by
    unfold apply_markdown_command
    rw [hb]
  rw [hstep, ha]

theorem strSlice_length (text : Str) (a b : Nat) (hab : a ≤ b) (hb : b ≤ text.length) :
    (strSlice text a b).length = b - a := by
  unfold strSlice
  rw [List.length_take, List.length_drop]
  omega

/-- Claim C6: `Wrap{open, close}` replaces the clamped selection with
`open ++ selected ++ close`; a cursor selection ends up just after `open`,
a range selection collapses to a cursor just after the inserted `close`;
and the concrete example `Wrap("**","**")` on selection `(0,7)` over
`"bedrock"` yields `"**bedrock**"` with the cursor at 11. -/
theorem C6_wrap_replaces_selection :
    (∀ (s : EditorSnapshot) (open_ close_ label : Str) (sel : Selection),
      sel = s.selection.clamp s.text.length →
      (apply_markdown_command s (MarkdownCommand.Wrap open_ close_ label)).1.text
        = s.text.take sel.start ++ open_ ++ strSlice s.text sel.start sel.end_
          ++ close_ ++ s.text.drop sel.end_
      ∧ (apply_markdown_command s (MarkdownCommand.Wrap open_ close_ label)).1.selection
        = (if sel.is_cursor then Selection.cursor (sel.start + open_.length)
           else Selection.cursor (sel.end_ + open_.length + close_.length)))
    ∧ apply_markdown_command ((EditorSnapshot.new ("bedrock".data)).set_selection
        (Selection.new 0 7)) (MarkdownCommand.Wrap ("**".data) ("**".data) ("bold".data))
      = (⟨"**bedrock**".data, Selection.cursor 11, 1⟩, Except.ok true) := by
  constructor
  · intro s open_ close_ label sel hs
    subst hs
    have hab := (Selection.clamp_facts s.selection s.text.length).1
    have hblen := (Selection.clamp_facts s.selection s.text.length).2
    have hnorm : normalize_changes
        (wrap_transaction s open_ close_ label).changes s.text.length
        = Except.ok [⟨(s.selection.clamp s.text.length).start,
            (s.selection.clamp s.text.length).end_,
            open_ ++ strSlice s.text (s.selection.clamp s.text.length).start
              (s.selection.clamp s.text.length).end_ ++ close_⟩] :=
      normalize_single _ _ hab hblen
    have happly := apply_transaction_ok_eq s (wrap_transaction s open_ close_ label) _ hnorm
    have hcmd := apply_markdown_command_eq s (MarkdownCommand.Wrap open_ close_ label)
      (wrap_transaction s open_ close_ label) rfl _ _ happly
    rw [hcmd]
    have hilen : (strSlice s.text (s.selection.clamp s.text.length).start
        (s.selection.clamp s.text.length).end_).length
        = (s.selection.clamp s.text.length).end_ - (s.selection.clamp s.text.length).start :=
      strSlice_length s.text _ _ hab hblen
    have htext : (if ([⟨(s.selection.clamp s.text.length).start,
          (s.selection.clamp s.text.length).end_,
          open_ ++ strSlice s.text (s.selection.clamp s.text.length).start
            (s.selection.clamp s.text.length).end_ ++ close_⟩] : List TextChange).isEmpty
        then s.text
        else apply_changes_to_text s.text [⟨(s.selection.clamp s.text.length).start,
          (s.selection.clamp s.text.length).end_,
          open_ ++ strSlice s.text (s.selection.clamp s.text.length).start
            (s.selection.clamp s.text.length).end_ ++ close_⟩])
        = s.text.take (s.selection.clamp s.text.length).start
          ++ (open_ ++ strSlice s.text (s.selection.clamp s.text.length).start
            (s.selection.clamp s.text.length).end_ ++ close_)
          ++ s.text.drop (s.selection.clamp s.text.length).end_ := by
      rw [if_neg (by simp)]
      exact apply_changes_single s.text _
    have hlen_eq : (s.text.take (s.selection.clamp s.text.length).start
        ++ (open_ ++ strSlice s.text (s.selection.clamp s.text.length).start
          (s.selection.clamp s.text.length).end_ ++ close_)
        ++ s.text.drop (s.selection.clamp s.text.length).end_).length
        = s.text.length + open_.length + close_.length := by
      simp only [List.length_append, List.length_take, List.length_drop, hilen]
      omega
    constructor
    · dsimp only
      rw [htext]
      simp [List.append_assoc]
    · dsimp only
      have hsa : (wrap_transaction s open_ close_ label).selection_after
          = some (if (s.selection.clamp s.text.length).is_cursor
              then Selection.cursor ((s.selection.clamp s.text.length).start + open_.length)
              else Selection.cursor ((s.selection.clamp s.text.length).end_
                + open_.length + close_.length)) := rfl
      rw [hsa]
      dsimp only
      rw [htext]
      by_cases hc : (s.selection.clamp s.text.length).is_cursor = true
      · rw [if_pos hc]
        exact Selection.clamp_cursor _ _ (by rw [hlen_eq]; omega)
      · rw [if_neg hc]
        exact Selection.clamp_cursor _ _ (by rw [hlen_eq]; omega)
  · decide

/-- Witness for C6: instantiating the general wrap law at the `"bedrock"`
snapshot with selection `(0,7)`. -/
theorem C6_witness :
    (⟨0, 7⟩ : Selection) = (((EditorSnapshot.new ("bedrock".data)).set_selection
        (Selection.new 0 7)).selection.clamp
        ((EditorSnapshot.new ("bedrock".data)).set_selection (Selection.new 0 7)).text.length)
    ∧ (apply_markdown_command ((EditorSnapshot.new ("bedrock".data)).set_selection
        (Selection.new 0 7)) (MarkdownCommand.Wrap ("**".data) ("**".data) ("bold".data))).1.text
      = ((EditorSnapshot.new ("bedrock".data)).set_selection (Selection.new 0 7)).text.take 0
        ++ "**".data
        ++ strSlice ((EditorSnapshot.new ("bedrock".data)).set_selection
            (Selection.new 0 7)).text 0 7
        ++ "**".data
        ++ ((EditorSnapshot.new ("bedrock".data)).set_selection (Selection.new 0 7)).text.drop 7 :=
  ⟨by decide,
    (C6_wrap_replaces_selection.1 ((EditorSnapshot.new ("bedrock".data)).set_selection
        (Selection.new 0 7)) ("**".data) ("**".data) ("bold".data) ⟨0, 7⟩ (by decide)).1⟩


/-- Claim C10: for a non-cursor selection, Outdent always builds a
transaction replacing the whole touched block and selecting
`[block_start, block_start + transformed.length]` — so there is a snapshot
(`"a\nb"` with selection `(0,2)`, no line indented) where the text is
unchanged yet `apply_markdown_command` returns `Ok(true)` because the
selection grew to the block range, while the cursor case on an unindented
line returns `Ok(false)` without mutating anything. -/
theorem C10_outdent_block_always_replaces :
    (∀ s : EditorSnapshot, (s.selection.clamp s.text.length).is_cursor = false →
      indent_or_outdent_transaction s true
        = some (Transaction.single
            ⟨line_start s.text (s.selection.clamp s.text.length).start,
              line_end s.text (s.selection.clamp s.text.length).end_,
              outdent_block_transformed s⟩
            (some (Selection.new (line_start s.text (s.selection.clamp s.text.length).start)
              (line_start s.text (s.selection.clamp s.text.length).start
                + (outdent_block_transformed s).length)))
            ChangeOrigin.Command ("outdent-block".data)))
    ∧ apply_markdown_command (⟨"a\nb".data, ⟨0, 2⟩, 0⟩ : EditorSnapshot)
        MarkdownCommand.Outdent
      = (⟨"a\nb".data, ⟨0, 3⟩, 0⟩, Except.ok true)
    ∧ apply_markdown_command (⟨"a\nb".data, ⟨0, 0⟩, 0⟩ : EditorSnapshot)
        MarkdownCommand.Outdent
      = (⟨"a\nb".data, ⟨0, 0⟩, 0⟩, Except.ok false) := by
  refine ⟨?_, by decide, by decide⟩
  intro s h
  simp [indent_or_outdent_transaction, outdent_block_transformed, h]

/-- Witness for C10: the block branch of Outdent at the unindented two-line
snapshot with partial selection `(0,2)`. -/
theorem C10_witness :
    ((⟨"a\nb".data, ⟨0, 2⟩, 0⟩ : EditorSnapshot).selection.clamp
        (⟨"a\nb".data, ⟨0, 2⟩, 0⟩ : EditorSnapshot).text.length).is_cursor = false
    ∧ indent_or_outdent_transaction (⟨"a\nb".data, ⟨0, 2⟩, 0⟩ : EditorSnapshot) true
      = some (Transaction.single
          ⟨line_start ("a\nb".data) 0, line_end ("a\nb".data) 2,
            outdent_block_transformed (⟨"a\nb".data, ⟨0, 2⟩, 0⟩ : EditorSnapshot)⟩
          (some (Selection.new (line_start ("a\nb".data) 0)
            (line_start ("a\nb".data) 0
              + (outdent_block_transformed (⟨"a\nb".data, ⟨0, 2⟩, 0⟩ : EditorSnapshot)).length)))
          ChangeOrigin.Command ("outdent-block".data)) :=
  ⟨by decide,
    C10_outdent_block_always_replaces.1 (⟨"a\nb".data, ⟨0, 2⟩, 0⟩ : EditorSnapshot) (by decide)⟩

theorem caret_inside_bool_true (caret : Option Nat) (m : InlineMatch)
    (h : caret_within caret m) : caret_inside_bool caret m = true := by
  cases caret with
  | none => exact False.elim h
  | some c => exact decide_eq_true h

theorem caret_inside_bool_false (caret : Option Nat) (m : InlineMatch)
    (h : ¬caret_within caret m) : caret_inside_bool caret m = false := by
  cases caret with
  | none => rfl
  | some c => exact decide_eq_false h

/-- Claim C7: in the inline pass, an accepted span whose format hides its
delimiter tokens renders both tokens under the visible-token class (with the
inner text still under the formatting class) when the caret lies within the
span, and under the hidden-token class when the caret is outside or absent;
`"**bold**"` with no caret hides both `**` under the hidden-token class
around `bold` under the bold class, and with caret 4 reveals them under the
visible-token class. -/
theorem C7_hidden_tokens_revealed_near_caret :
    (∀ (text : Str) (caret : Option Nat) (m : InlineMatch),
      m.hide_tokens = true →
      (caret_within caret m →
        render_one text caret m
          = ("<span class=\"md-token md-token-visible\">").data
            ++ escape_html (strSlice text m.start (m.start + m.open_len))
            ++ ("</span><span class=\"").data ++ m.cls ++ ("\">").data
            ++ escape_html (strSlice text m.inner_start m.inner_end)
            ++ ("</span><span class=\"md-token md-token-visible\">").data
            ++ escape_html (strSlice text (m.end_ - m.close_len) m.end_)
            ++ ("</span>").data
            ++ (match m.preview_html with | some p => p | none => []))
      ∧ (¬caret_within caret m →
        render_one text caret m
          = ("<span class=\"md-token md-token-hidden\">").data
            ++ escape_html (strSlice text m.start (m.start + m.open_len))
            ++ ("</span><span class=\"").data ++ m.cls ++ ("\">").data
            ++ escape_html (strSlice text m.inner_start m.inner_end)
            ++ ("</span><span class=\"md-token md-token-hidden\">").data
            ++ escape_html (strSlice text (m.end_ - m.close_len) m.end_)
            ++ ("</span>").data
            ++ (match m.preview_html with | some p => p | none => [])))
    ∧ highlight_inline ("**bold**".data) none none
      = ("<span class=\"md-token md-token-hidden\">**</span><span class=\"hl-bold\">bold</span><span class=\"md-token md-token-hidden\">**</span>").data
    ∧ highlight_inline ("**bold**".data) (some 4) none
      = ("<span class=\"md-token md-token-visible\">**</span><span class=\"hl-bold\">bold</span><span class=\"md-token md-token-visible\">**</span>").data := by
  refine ⟨?_, by decide, by decide⟩
  intro text caret m hhide
  constructor
  · intro hin
    unfold render_one
    rw [caret_inside_bool_true caret m hin, hhide]
    rfl
  · intro hout
    unfold render_one
    rw [caret_inside_bool_false caret m hout, hhide]
    rfl

/-- Witness for C7: the accepted bold span of `"**bold**"` with caret 4
inside it. -/
theorem C7_witness :
    (⟨0, 8, 2, 6, 2, 2, "hl-bold".data, true, none⟩ : InlineMatch).hide_tokens = true
    ∧ caret_within (some 4) (⟨0, 8, 2, 6, 2, 2, "hl-bold".data, true, none⟩ : InlineMatch)
    ∧ render_one ("**bold**".data) (some 4)
        (⟨0, 8, 2, 6, 2, 2, "hl-bold".data, true, none⟩ : InlineMatch)
      = ("<span class=\"md-token md-token-visible\">").data
        ++ escape_html (strSlice ("**bold**".data) 0 (0 + 2))
        ++ ("</span><span class=\"").data ++ "hl-bold".data ++ ("\">").data
        ++ escape_html (strSlice ("**bold**".data) 2 6)
        ++ ("</span><span class=\"md-token md-token-visible\">").data
        ++ escape_html (strSlice ("**bold**".data) (8 - 2) 8)
        ++ ("</span>").data
        ++ (match (none : Option Str) with | some p => p | none => []) :=
  ⟨rfl, by decide,
    (C7_hidden_tokens_revealed_near_caret.1 ("**bold**".data) (some 4)
      (⟨0, 8, 2, 6, 2, 2, "hl-bold".data, true, none⟩ : InlineMatch) rfl).1 (by decide)⟩

/-! Lemmas about association lists, toward the backlink symmetry claim. -/

theorem alist_get?_update_self {V : Type} (m : List (Str × V)) (k : Str) (dflt : V)
    (f : V → V) :
    alist_get? (alist_update m k dflt f) k = some (f ((alist_get? m k).getD dflt)) := by
  induction m with
  | nil => simp [alist_update, alist_get?]
  | cons kv rest ih =>
    obtain ⟨k2, v2⟩ := kv
    by_cases h : (k2 == k) = true
    · simp [alist_update, alist_get?, h]
    · simp [alist_update, alist_get?, h, ih]

theorem alist_get?_update_ne {V : Type} (m : List (Str × V)) (k : Str) (dflt : V)
    (f : V → V) (k' : Str) (h : k' ≠ k) :
    alist_get? (alist_update m k dflt f) k' = alist_get? m k' := by
  have hkk : (k == k') = false := beq_eq_false_iff_ne.mpr (fun hh => h hh.symm)
  induction m with
  | nil => simp [alist_update, alist_get?, hkk]
  | cons kv rest ih =>
    obtain ⟨k2, v2⟩ := kv
    by_cases h2 : (k2 == k) = true
    · have hk2 : k2 = k := by simpa using h2
      subst hk2
      simp [alist_update, alist_get?, hkk]
    · simp [alist_update, alist_get?, h2, ih]

theorem alist_get?_map {V W : Type} (g : V → W) (m : List (Str × V)) (k : Str) :
    alist_get? (m.map (fun kv => (kv.1, g kv.2))) k = (alist_get? m k).map g := by
  induction m with
  | nil => simp [alist_get?]
  | cons kv rest ih =>
    obtain ⟨k2, v2⟩ := kv
    by_cases h : (k2 == k) = true
    · simp [alist_get?, h]
    · simp [alist_get?, h, ih]

theorem foldl_preserve {σ α : Type} (P : σ → Prop) (f : σ → α → σ)
    (hstep : ∀ s a, P s → P (f s a)) :
    ∀ (l : List α) (s : σ), P s → P (l.foldl f s)
  | [], _, h => h
  | a :: l, s, h => foldl_preserve P f hstep l (f s a) (hstep s a h)

theorem resolved_has_update_iff (r : List (Str × List (Str × Nat)))
    (path target p t : Str) :
    resolved_has (alist_update r path []
      (fun m => alist_update m target 0 (fun n => n + 1))) p t
      ↔ ((p = path ∧ t = target) ∨ resolved_has r p t) := by
  by_cases hp : p = path
  · subst hp
    unfold resolved_has
    rw [alist_get?_update_self]
    simp only [Option.some.injEq, exists_eq_left']
    by_cases ht : t = target
    · subst ht
      rw [alist_get?_update_self]
      simp
    · rw [alist_get?_update_ne _ _ _ _ _ ht]
      cases hR : alist_get? r p with
      | none => simp [hR, ht, alist_get?]
      | some m => simp [hR, ht]
  · unfold resolved_has
    rw [alist_get?_update_ne _ _ _ _ _ hp]
    simp [hp]

theorem backlinks_has_update_iff (b : List (Str × List Str)) (path target p t : Str) :
    backlinks_has (alist_update b target [] (fun l => l ++ [path])) p t
      ↔ ((p = path ∧ t = target) ∨ backlinks_has b p t) := by
  by_cases ht : t = target
  · subst ht
    unfold backlinks_has
    rw [alist_get?_update_self]
    simp only [Option.some.injEq, exists_eq_left']
    by_cases hp : p = path
    · subst hp
      simp
    · cases hB : alist_get? b t with
      | none => simp [hB, hp]
      | some l => simp [hB, hp]
  · unfold backlinks_has
    rw [alist_get?_update_ne _ _ _ _ _ ht]
    simp [ht]

theorem link_step_preserves (fl : List (Str × Str)) (sl : List (Str × List Str))
    (path : Str)
    (st : List (Str × List (Str × Nat)) × List (Str × List (Str × Nat))
      × List (Str × List Str)) (link : Str)
    (h : ∀ p t, resolved_has st.1 p t ↔ backlinks_has st.2.2 p t) :
    ∀ p t, resolved_has (link_step fl sl path st link).1 p t
      ↔ backlinks_has (link_step fl sl path st link).2.2 p t := by
  intro p t
  unfold link_step
  cases hres : resolve_linkpath link path fl sl with
  | none => exact h p t
  | some target =>
    dsimp only
    rw [resolved_has_update_iff, backlinks_has_update_iff]
    exact or_congr_right (h p t)

theorem build_phase2_symmetric (fl : List (Str × Str)) (sl : List (Str × List Str))
    (fc : List (Str × FileCache)) (files : List Str) :
    ∀ p t, resolved_has (build_phase2 fl sl fc files).1 p t
      ↔ backlinks_has (build_phase2 fl sl fc files).2.2 p t := by
  unfold build_phase2
  refine foldl_preserve
    (fun (st : List (Str × List (Str × Nat)) × List (Str × List (Str × Nat))
        × List (Str × List Str)) =>
      ∀ p t, resolved_has st.1 p t ↔ backlinks_has st.2.2 p t) _ ?_ files _ ?_
  · intro st path hst
    exact foldl_preserve
      (fun (st2 : List (Str × List (Str × Nat)) × List (Str × List (Str × Nat))
          × List (Str × List Str)) =>
        ∀ p t, resolved_has st2.1 p t ↔ backlinks_has st2.2.2 p t)
      (link_step fl sl path)
      (fun st2 link h2 => link_step_preserves fl sl path st2 link h2) _ st hst
  · intro p t
    simp [resolved_has, backlinks_has, alist_get?]

theorem mem_dedup_adjacent (x : Str) : ∀ l : List Str, x ∈ dedup_adjacent l ↔ x ∈ l
  | [] => by simp [dedup_adjacent]
  | [a] => by simp [dedup_adjacent]
  | a :: b :: rest => by
    unfold dedup_adjacent
    by_cases hab : (a == b) = true
    · rw [if_pos hab, mem_dedup_adjacent x (b :: rest)]
      have hab2 : a = b := by simpa using hab
      subst hab2
      simp
    · rw [if_neg hab]
      simp [mem_dedup_adjacent x (b :: rest)]

theorem mem_sort_dedup (x : Str) (l : List Str) :
    x ∈ dedup_adjacent (List.insertionSort str_le l) ↔ x ∈ l := by
  rw [mem_dedup_adjacent, (List.perm_insertionSort str_le l).mem_iff]

theorem backlinks_has_sort_dedup (b : List (Str × List Str)) (p t : Str) :
    backlinks_has (b.map (fun kv =>
      (kv.1, dedup_adjacent (List.insertionSort str_le kv.2)))) p t
      ↔ backlinks_has b p t := by
  unfold backlinks_has
  rw [alist_get?_map (fun v => dedup_adjacent (List.insertionSort str_le v)) b t]
  cases hB : alist_get? b t with
  | none => simp
  | some l => simp [mem_sort_dedup]

/-- Claim C8: in every built MetadataCacheState the resolved-link map and the
backlink index are symmetric — `resolved_links[p]` has an entry for `t` iff
`backlinks[t]` contains `p` — and on the two-note vault `A.md: [[B]]`,
`B.md: # hi` the indexer records `resolved_links[A.md][B.md] = 1` with
`backlinks[B.md] = [A.md]`, while `A.md: [[C]]` without `C.md` lands in
`unresolved_links[A.md][C] = 1`. -/
theorem C8_backlink_symmetry :
    (∀ (notes : List (Str × Str)) (files : List Str) (p t : Str),
      resolved_has (build_metadata_cache notes files).resolved_links p t
        ↔ backlinks_has (build_metadata_cache notes files).backlinks p t)
    ∧ alist_get? ((build_metadata_cache
        [("A.md".data, "[[B]]".data), ("B.md".data, "# hi".data)]
        ["A.md".data, "B.md".data]).resolved_links) ("A.md".data)
      = some [("B.md".data, 1)]
    ∧ alist_get? ((build_metadata_cache
        [("A.md".data, "[[B]]".data), ("B.md".data, "# hi".data)]
        ["A.md".data, "B.md".data]).backlinks) ("B.md".data)
      = some ["A.md".data]
    ∧ alist_get? ((build_metadata_cache [("A.md".data, "[[C]]".data)]
        ["A.md".data]).unresolved_links) ("A.md".data)
      = some [("C".data, 1)] := by
  refine ⟨?_, by decide, by decide, by decide⟩
  intro notes files p t
  unfold build_metadata_cache
  dsimp only
  rw [backlinks_has_sort_dedup]
  exact build_phase2_symmetric _ _ _ files p t

/-! Order lemmas for the byte-lexicographic string comparison. -/

theorem char_eq_of_toNat_eq (a b : Char) (h : a.toNat = b.toNat) : a = b := by
  have hv : a.val = b.val := by
    apply UInt32.ext
    exact h
  exact Char.eq_of_val_eq hv

theorem str_leb_total : ∀ a b : Str, str_leb a b = true ∨ str_leb b a = true
  | [], _ => Or.inl rfl
  | _ :: _, [] => Or.inr rfl
  | a :: as_, b :: bs => by
    unfold str_leb
    by_cases h1 : a.toNat < b.toNat
    · left
      rw [if_pos h1]
    · by_cases h2 : b.toNat < a.toNat
      · right
        rw [if_pos h2]
      · rw [if_neg h1, if_neg h2, if_neg h2, if_neg h1]
        exact str_leb_total as_ bs

theorem str_leb_trans :
    ∀ a b c : Str, str_leb a b = true → str_leb b c = true → str_leb a c = true
  | [], _, _, _, _ => rfl
  | _ :: _, [], _, h1, _ => by simp [str_leb] at h1
  | _ :: _, _ :: _, [], _, h2 => by simp [str_leb] at h2
  | a :: as_, b :: bs, c :: cs, h1, h2 => by
    unfold str_leb at h1 h2 ⊢
    by_cases hab : a.toNat < b.toNat
    · rw [if_pos hab] at h1
      by_cases hbc : b.toNat < c.toNat
      · rw [if_pos (show a.toNat < c.toNat by omega)]
      · rw [if_neg hbc] at h2
        by_cases hcb : c.toNat < b.toNat
        · rw [if_pos hcb] at h2
          simp at h2
        · rw [if_pos (show a.toNat < c.toNat by omega)]
    · rw [if_neg hab] at h1
      by_cases hba : b.toNat < a.toNat
      · rw [if_pos hba] at h1
        simp at h1
      · rw [if_neg hba] at h1
        by_cases hbc : b.toNat < c.toNat
        · rw [if_pos hbc] at h2
          rw [if_pos (show a.toNat < c.toNat by omega)]
        · rw [if_neg hbc] at h2
          by_cases hcb : c.toNat < b.toNat
          · rw [if_pos hcb] at h2
            simp at h2
          · rw [if_neg hcb] at h2
            rw [if_neg (show ¬a.toNat < c.toNat by omega),
              if_neg (show ¬c.toNat < a.toNat by omega)]
            exact str_leb_trans as_ bs cs h1 h2

theorem str_leb_antisymm :
    ∀ a b : Str, str_leb a b = true → str_leb b a = true → a = b
  | [], [], _, _ => rfl
  | [], _ :: _, _, h2 => by simp [str_leb] at h2
  | _ :: _, [], h1, _ => by simp [str_leb] at h1
  | a :: as_, b :: bs, h1, h2 => by
    unfold str_leb at h1 h2
    by_cases hab : a.toNat < b.toNat
    · rw [if_neg (show ¬b.toNat < a.toNat by omega), if_pos hab] at h2
      simp at h2
    · by_cases hba : b.toNat < a.toNat
      · rw [if_neg hab, if_pos hba] at h1
        simp at h1
      · rw [if_neg hab, if_neg hba] at h1
        rw [if_neg hba, if_neg hab] at h2
        rw [char_eq_of_toNat_eq a b (by omega), str_leb_antisymm as_ bs h1 h2]

instance str_le_total : IsTotal Str str_le := ⟨fun a b => str_leb_total a b⟩

instance str_le_trans : IsTrans Str str_le := ⟨fun a b c => str_leb_trans a b c⟩

theorem dedup_adjacent_nodup :
    ∀ l : List Str, List.Sorted str_le l → (dedup_adjacent l).Nodup
  | [], _ => by simp [dedup_adjacent]
  | [a], _ => by simp [dedup_adjacent]
  | a :: b :: rest, h => by
    unfold dedup_adjacent
    have htail : List.Sorted str_le (b :: rest) := h.of_cons
    by_cases hab : (a == b) = true
    · rw [if_pos hab]
      exact dedup_adjacent_nodup (b :: rest) htail
    · rw [if_neg hab]
      have hne : a ≠ b := by simpa using hab
      refine List.nodup_cons.mpr ⟨?_, dedup_adjacent_nodup (b :: rest) htail⟩
      intro hmem
      have hmem2 : a ∈ b :: rest := (mem_dedup_adjacent a (b :: rest)).mp hmem
      have hax := (List.pairwise_cons.mp h).1
      cases hmem2 with
      | head => exact hne rfl
      | tail _ hmem3 =>
        have h1 : str_le a b := hax b (List.mem_cons_self b rest)
        have h2 : str_le b a := (List.pairwise_cons.mp htail).1 a hmem3
        exact hne (str_leb_antisymm a b h1 h2)

/-- Counterexample to claim C9: `FileCache.links` is sorted and
deduplicated, not one entry per occurrence.  The note `"[[B]] [[B]]"`
contains the raw link `B` twice, yet its `links` list is `["B"]` (length 1,
not 2) and the resolved count for `B.md` is 1, not 2. -/
theorem C9_counterexample :
    wiki_raw_links ("[[B]] [[B]]".data) = ["B".data, "B".data]
    ∧ (extract_file_cache ("[[B]] [[B]]".data)).links = ["B".data]
    ∧ (extract_file_cache ("[[B]] [[B]]".data)).links.length ≠ 2
    ∧ alist_get? ((build_metadata_cache
        [("A.md".data, "[[B]] [[B]]".data), ("B.md".data, [])]
        ["A.md".data, "B.md".data]).resolved_links) ("A.md".data)
      = some [("B.md".data, 1)]
    ∧ ([("B.md".data, 1)] : List (Str × Nat)) ≠ [("B.md".data, 2)] :=
  ⟨by decide, by decide, by decide, by decide, by decide⟩

/-- Claim C9 as amended: `FileCache.links` is the sorted, deduplicated list
of the raw link targets occurring in the note (wiki links then markdown
links) — its members are exactly the occurring targets, it has no
duplicates, and each *distinct* raw link contributes one resolution, so the
same target occurring n times yields a count of 1, as on
`"[[B]] [[B]]"`. -/
theorem C9_links_sorted_deduplicated :
    (∀ (text x : Str),
      x ∈ (extract_file_cache text).links
        ↔ x ∈ wiki_raw_links text ++ md_raw_links text)
    ∧ (∀ text : Str, (extract_file_cache text).links.Nodup)
    ∧ (extract_file_cache ("[[B]] [[B]]".data)).links = ["B".data]
    ∧ alist_get? ((build_metadata_cache
        [("A.md".data, "[[B]] [[B]]".data), ("B.md".data, [])]
        ["A.md".data, "B.md".data]).resolved_links) ("A.md".data)
      = some [("B.md".data, 1)] := by
  refine ⟨?_, ?_, by decide, by decide⟩
  · intro text x
    unfold extract_file_cache
    dsimp only
    exact mem_sort_dedup x _
  · intro text
    unfold extract_file_cache
    dsimp only
    exact dedup_adjacent_nodup _ (List.sorted_insertionSort str_le _)

end Bedrock
